import Mathlib

/-!
Verification of the homie5 library (Rust) against its natural-language
specification.  The Rust sources are shallowly embedded: machine integers
i64 are modelled as `Int` with explicit range checks where the Rust code
performs a checked string conversion and with two's-complement wrapping
where the code performs release-mode arithmetic, `f64` values and their
arithmetic are modelled exactly by the `F64` type below (IEEE-754 binary64
with round-to-nearest-even, represented as a signed dyadic
mantissa/exponent pair plus the infinities and NaN) — except for the xyz
color components, which stay exact rationals (`Rat`), narrowing only the
success domain of the color parser — byte buffers are `List Nat` (each
entry a byte value), and Rust `String`s are Lean `String`s.
-/

/-! ## Byte and string utilities (Rust `str` / `String::from_utf8`) -/

/-- UTF-8 encoding of a single unicode scalar value, as Rust `String::into_bytes`
produces (standard UTF-8, 1 to 4 bytes). -/
def utf8EncodeChar (c : Char) : List Nat :=
  let n := c.toNat
  if n < 0x80 then [n]
  else if n < 0x800 then
    [0xC0 + n / 0x40, 0x80 + n % 0x40]
  else if n < 0x10000 then
    [0xE0 + n / 0x1000, 0x80 + (n / 0x40) % 0x40, 0x80 + n % 0x40]
  else
    [0xF0 + n / 0x40000, 0x80 + (n / 0x1000) % 0x40, 0x80 + (n / 0x40) % 0x40,
      0x80 + n % 0x40]

/-- UTF-8 encoding of a string (Rust `String::into_bytes` / `str::as_bytes`). -/
def utf8Encode (s : String) : List Nat :=
  s.data.flatMap utf8EncodeChar

/-- Strict UTF-8 decoder on the list of code units, mirroring Rust
`String::from_utf8`: rejects invalid leading bytes, truncated or
non-continuation follow-up bytes, overlong encodings, surrogates and
values above U+10FFFF. -/
def utf8DecodeChars : List Nat → Option (List Char)
  | [] => some []
  | b0 :: rest =>
    if b0 < 0x80 then
      (utf8DecodeChars rest).map (fun cs => Char.ofNat b0 :: cs)
    else if b0 < 0xC2 then none
    else if b0 < 0xE0 then
      match rest with
      | b1 :: rest1 =>
        if 0x80 ≤ b1 ∧ b1 < 0xC0 then
          (utf8DecodeChars rest1).map
            (fun cs => Char.ofNat ((b0 - 0xC0) * 0x40 + (b1 - 0x80)) :: cs)
        else none
      | _ => none
    else if b0 < 0xF0 then
      match rest with
      | b1 :: b2 :: rest2 =>
        if 0x80 ≤ b1 ∧ b1 < 0xC0 ∧ 0x80 ≤ b2 ∧ b2 < 0xC0 then
          let v := (b0 - 0xE0) * 0x1000 + (b1 - 0x80) * 0x40 + (b2 - 0x80)
          if 0x800 ≤ v ∧ ¬ (0xD800 ≤ v ∧ v < 0xE000) then
            (utf8DecodeChars rest2).map (fun cs => Char.ofNat v :: cs)
          else none
        else none
      | _ => none
    else if b0 < 0xF5 then
      match rest with
      | b1 :: b2 :: b3 :: rest3 =>
        if 0x80 ≤ b1 ∧ b1 < 0xC0 ∧ 0x80 ≤ b2 ∧ b2 < 0xC0 ∧ 0x80 ≤ b3 ∧ b3 < 0xC0 then
          let v := (b0 - 0xF0) * 0x40000 + (b1 - 0x80) * 0x1000 +
            (b2 - 0x80) * 0x40 + (b3 - 0x80)
          if 0x10000 ≤ v ∧ v < 0x110000 then
            (utf8DecodeChars rest3).map (fun cs => Char.ofNat v :: cs)
          else none
        else none
      | _ => none
    else none

/-- Rust `String::from_utf8` on a byte buffer. -/
def utf8Decode (bytes : List Nat) : Option String :=
  (utf8DecodeChars bytes).map String.mk

/-- Helper for `splitOnChar`: accumulates the current token (reversed). -/
def splitOnCharGo (sep : Char) : List Char → List Char → List String
  | [], acc => [String.mk acc.reverse]
  | c :: cs, acc =>
    if c = sep then String.mk acc.reverse :: splitOnCharGo sep cs []
    else splitOnCharGo sep cs (c :: acc)

/-- Rust `str::split(sep)` collected into a vector: splitting the empty string
yields one empty token, and separators at the ends yield empty tokens. -/
def splitOnChar (sep : Char) (s : String) : List String :=
  splitOnCharGo sep s.data []

/-! ## Decimal digits, Rust `i64::from_str` and `i64` Display -/

/-- Value of a list of decimal digit characters (most significant first). -/
def digitsToNat (ds : List Char) : Nat :=
  ds.foldl (fun acc c => acc * 10 + (c.toNat - 48)) 0

/-- Characters accepted as decimal digits. -/
def isDigitChar (c : Char) : Bool := 48 ≤ c.toNat ∧ c.toNat ≤ 57

/-- Rust `i64::from_str`: an optional sign followed by one or more decimal
digits, the value checked against the i64 range.  No other characters
(whitespace included) are accepted. -/
def parseI64 (s : String) : Option Int :=
  match s.data with
  | [] => none
  | c :: cs =>
    let (neg, ds) : Bool × List Char :=
      if c = '-' then (true, cs) else if c = '+' then (false, cs) else (false, c :: cs)
    if ds.isEmpty then none
    else if ds.all isDigitChar then
      let v : Int := (digitsToNat ds : Nat)
      let v := if neg then -v else v
      if -(2 ^ 63) ≤ v ∧ v < 2 ^ 63 then some v else none
    else none

/-- Round half away from zero of the rational `num / den` for `den > 0`,
the exact-arithmetic counterpart of the Rust expression
`(num as f64 / den as f64).round()` (`f64::round` rounds half away from
zero; the embedding computes the same value exactly). -/
def roundAway (num den : Int) : Int :=
  if 0 ≤ num then (2 * num + den) / (2 * den)
  else -((2 * (-num) + den) / (2 * den))

/-! ## Rust `f64::from_str`, modelled exactly over rationals.

The model accepts the finite-literal grammar of Rust float parsing
(optional sign, digits with an optional fraction part, optional exponent)
and returns the exactly-represented rational value; the `inf`/`NaN`
special spellings and the final rounding to 64-bit precision are not
modelled.  No theorem below depends on a float value that is not exactly
representable. -/

/-- Parse the optional exponent suffix of a float literal. -/
def parseExpPart (cs : List Char) : Option Int :=
  match cs with
  | [] => none
  | c :: cs1 =>
    let (neg, ds) : Bool × List Char :=
      if c = '-' then (true, cs1) else if c = '+' then (false, cs1) else (false, c :: cs1)
    if ds.isEmpty then none
    else if ds.all isDigitChar then
      let v : Int := (digitsToNat ds : Nat)
      some (if neg then -v else v)
    else none

/-- Mantissa and scale of the digit part `digits[.digits]` of a float literal. -/
def parseMantissa (cs : List Char) : Option (Nat × Nat) :=
  let (ipart, rest) := cs.span isDigitChar
  match rest with
  | [] => if ipart.isEmpty then none else some (digitsToNat ipart, 0)
  | '.' :: frac =>
    if frac.all isDigitChar ∧ ¬ (ipart.isEmpty ∧ frac.isEmpty) then
      some (digitsToNat (ipart ++ frac), frac.length)
    else none
  | _ => none

/-- Model of Rust `f64::from_str` returning the literal value as an exact
rational (see the module comment above for the modelling boundary). -/
def parseF64 (s : String) : Option Rat :=
  match s.data with
  | [] => none
  | c :: cs =>
    let (neg, body) : Bool × List Char :=
      if c = '-' then (true, cs) else if c = '+' then (false, cs) else (false, c :: cs)
    let (mant, rest) := body.span (fun ch => isDigitChar ch || ch = '.')
    let exp : Option Int :=
      match rest with
      | [] => some 0
      | e :: etail => if e = 'e' ∨ e = 'E' then parseExpPart etail else none
    match parseMantissa mant, exp with
    | some (m, scale), some ex =>
      let mag : Rat := (m : Rat) * (10 : Rat) ^ (ex - (scale : Int))
      some (if neg then -mag else mag)
    | _, _ => none

/-! ## Lexicographic byte order on strings (Rust `Ord` for `str`). -/

/-- Boolean lexicographic order on character lists by code point; it agrees
with Rust's byte-wise `Ord` on `str` because UTF-8 preserves code-point
order. -/
def charListLe : List Char → List Char → Bool
  | [], _ => true
  | _ :: _, [] => false
  | a :: as, b :: bs =>
    if a.toNat < b.toNat then true
    else if b.toNat < a.toNat then false
    else charListLe as bs

/-- Rust `str` order, `a <= b`. -/
def strLe (a b : String) : Bool := charListLe a.data b.data

/-! ## Exact model of IEEE-754 binary64 (`f64`)

Every `f64` operation the sources perform (conversion from `i64` and from a
decimal literal, division, subtraction, addition, multiplication, `round`,
comparison, cast to `i64`, `to_bits`) is modelled exactly over integers: a
finite double is a dyadic pair `m * 2 ^ e`, and each operation computes the
exact real result and rounds it to the nearest representable binary64, ties
to even, exactly as the hardware does.  The two IEEE zeros are merged into
a single zero (they are equal under every comparison and `PartialEq`; the
merge is observable only through `to_bits` of a negative zero, which no
value below exercises). -/

/-- Fuel-driven binary logarithm: `log2Fuel f n` is the floor of the base-2
logarithm of `n` whenever `1 ≤ n < 2 ^ f`; structural in the fuel so that
it reduces in the kernel. -/
def log2Fuel : Nat → Nat → Nat
  | 0, _ => 0
  | f + 1, n => if n ≤ 1 then 0 else log2Fuel f (n / 2) + 1

/-- Floor of the base-2 logarithm of a positive natural. -/
def natLog2 (n : Nat) : Nat := log2Fuel n n

/-- Decide `b * 2 ^ k ≤ a` for an integer exponent `k`. -/
def pow2Le (b : Nat) (k : Int) (a : Nat) : Bool :=
  if 0 ≤ k then b * 2 ^ k.toNat ≤ a else b ≤ a * 2 ^ (-k).toNat

/-- Floor of the base-2 logarithm of the positive rational `a / b`. -/
def ratLog2Floor (a b : Nat) : Int :=
  let k : Int := (natLog2 a : Int) - (natLog2 b : Int)
  if pow2Le b k a then k else k - 1

/-- Round the nonnegative quotient `n / d` (`d` positive) to a natural
number, ties to even. -/
def divRNE (n d : Nat) : Nat :=
  let q := n / d
  let r := n % d
  if d < 2 * r then q + 1
  else if 2 * r < d then q
  else if q % 2 = 0 then q else q + 1

/-- IEEE-754 binary64 values: `finite m e` stands for `m * 2 ^ e` in the
canonical representation produced by the rounding functions below (a
normalized 53-bit mantissa, or a subnormal at `e = -1074`, or `finite 0 0`
for the merged zero), plus the infinities and NaN. -/
inductive F64 where
  | finite (m : Int) (e : Int)
  | inf
  | neginf
  | nan
deriving DecidableEq, Repr

/-- Negation of a double. -/
def f64Neg : F64 → F64
  | .finite m e => .finite (-m) e
  | .inf => .neginf
  | .neginf => .inf
  | .nan => .nan

/-- Assemble the canonical nonnegative finite double `m * 2 ^ eff` from a
rounded mantissa `m ≤ 2 ^ 53`: a mantissa that rounded up to `2 ^ 53` is
renormalized, and a value at or above `2 ^ 1024` overflows to infinity. -/
def mkF64 (m : Nat) (eff : Int) : F64 :=
  if m = 0 then .finite 0 0
  else
    let p : Nat × Int := if m = 2 ^ 53 then (2 ^ 52, eff + 1) else (m, eff)
    if 0 ≤ p.2 ∧ 2 ^ 1024 ≤ p.1 * 2 ^ p.2.toNat then .inf
    else .finite (p.1 : Int) p.2

/-- Round the positive rational `n / d` (`n, d ≥ 1`) to the nearest binary64,
ties to even: the mantissa granularity is `2 ^ (e - 52)` for binade `e`,
clamped at the subnormal granularity `2 ^ (-1074)`. -/
def roundPosRatF64 (n d : Nat) : F64 :=
  let e := ratLog2Floor n d
  let eff : Int := max (e - 52) (-1074)
  let m :=
    if 0 ≤ eff then divRNE n (d * 2 ^ eff.toNat)
    else divRNE (n * 2 ^ (-eff).toNat) d
  mkF64 m eff

/-- Round the rational `num / den` to the nearest binary64; division by zero
follows IEEE-754 (`±∞`, or NaN for `0 / 0`). -/
def roundQuotF64 (num den : Int) : F64 :=
  if den = 0 then
    if num = 0 then .nan else if 0 < num then .inf else .neginf
  else if num = 0 then .finite 0 0
  else if decide (num < 0) = decide (den < 0) then
    roundPosRatF64 num.natAbs den.natAbs
  else f64Neg (roundPosRatF64 num.natAbs den.natAbs)

/-- Round the dyadic value `m * 2 ^ e` to the nearest binary64. -/
def roundDyadicF64 (m : Int) (e : Int) : F64 :=
  if 0 ≤ e then roundQuotF64 (m * 2 ^ e.toNat) 1 else roundQuotF64 m (2 ^ (-e).toNat)

/-- Conversion of an `i64` to a double (Rust `as f64`: round to nearest,
ties to even). -/
def intToF64 (n : Int) : F64 := roundDyadicF64 n 0

/-- IEEE division of doubles (Rust `/` on `f64`): the exact quotient of two
finite values correctly rounded, with the IEEE special cases. -/
def f64Div : F64 → F64 → F64
  | .nan, _ => .nan
  | _, .nan => .nan
  | .inf, .inf => .nan
  | .inf, .neginf => .nan
  | .neginf, .inf => .nan
  | .neginf, .neginf => .nan
  | .inf, .finite m _ => if 0 ≤ m then .inf else .neginf
  | .neginf, .finite m _ => if 0 ≤ m then .neginf else .inf
  | .finite _ _, .inf => .finite 0 0
  | .finite _ _, .neginf => .finite 0 0
  | .finite m1 e1, .finite m2 e2 =>
    if 0 ≤ e1 - e2 then roundQuotF64 (m1 * 2 ^ (e1 - e2).toNat) m2
    else roundQuotF64 m1 (m2 * 2 ^ (e2 - e1).toNat)

/-- IEEE subtraction of doubles (Rust `-` on `f64`): the exact difference
correctly rounded. -/
def f64Sub : F64 → F64 → F64
  | .nan, _ => .nan
  | _, .nan => .nan
  | .inf, .inf => .nan
  | .inf, _ => .inf
  | .neginf, .neginf => .nan
  | .neginf, _ => .neginf
  | .finite _ _, .inf => .neginf
  | .finite _ _, .neginf => .inf
  | .finite m1 e1, .finite m2 e2 =>
    let e := min e1 e2
    roundDyadicF64 (m1 * 2 ^ (e1 - e).toNat - m2 * 2 ^ (e2 - e).toNat) e

/-- IEEE addition of doubles (Rust `+` on `f64`). -/
def f64Add : F64 → F64 → F64
  | .nan, _ => .nan
  | _, .nan => .nan
  | .inf, .neginf => .nan
  | .inf, _ => .inf
  | .neginf, .inf => .nan
  | .neginf, _ => .neginf
  | .finite _ _, .inf => .inf
  | .finite _ _, .neginf => .neginf
  | .finite m1 e1, .finite m2 e2 =>
    let e := min e1 e2
    roundDyadicF64 (m1 * 2 ^ (e1 - e).toNat + m2 * 2 ^ (e2 - e).toNat) e

/-- Sign of a double for the special cases of multiplication: `0` for zero
or NaN, otherwise `±1`. -/
def f64Sign : F64 → Int
  | .nan => 0
  | .inf => 1
  | .neginf => -1
  | .finite m _ => if m = 0 then 0 else if 0 < m then 1 else -1

/-- IEEE multiplication of doubles (Rust `*` on `f64`). -/
def f64Mul : F64 → F64 → F64
  | .nan, _ => .nan
  | _, .nan => .nan
  | .finite m1 e1, .finite m2 e2 => roundDyadicF64 (m1 * m2) (e1 + e2)
  | a, b =>
    if f64Sign a * f64Sign b = 0 then .nan
    else if 0 < f64Sign a * f64Sign b then .inf else .neginf

/-- `f64::round`: round half away from zero to the nearest integer.  A double
below `2 ^ 52` in magnitude rounds to an integer of magnitude at most
`2 ^ 52`, which is exactly representable; larger doubles are already
integers. -/
def f64RoundHalfAway : F64 → F64
  | .nan => .nan
  | .inf => .inf
  | .neginf => .neginf
  | .finite m e =>
    if 0 ≤ e then .finite m e
    else
      let g : Nat := 2 ^ (-e).toNat
      let r : Nat := (2 * m.natAbs + g) / (2 * g)
      roundDyadicF64 (if m < 0 then -(r : Int) else (r : Int)) 0

/-- Rust `as i64` on a double: truncate toward zero, saturating at the i64
bounds, with NaN mapped to zero. -/
def f64CastToI64 : F64 → Int
  | .nan => 0
  | .inf => 2 ^ 63 - 1
  | .neginf => -(2 ^ 63)
  | .finite m e =>
    let t : Int := if 0 ≤ e then m * 2 ^ e.toNat else Int.tdiv m (2 ^ (-e).toNat)
    if t < -(2 ^ 63) then -(2 ^ 63)
    else if 2 ^ 63 - 1 < t then 2 ^ 63 - 1
    else t

/-- IEEE `<=` on doubles: false whenever one side is NaN. -/
def f64Le : F64 → F64 → Bool
  | .nan, _ => false
  | _, .nan => false
  | .neginf, _ => true
  | _, .neginf => false
  | _, .inf => true
  | .inf, _ => false
  | .finite m1 e1, .finite m2 e2 =>
    decide (m1 * 2 ^ (e1 - min e1 e2).toNat ≤ m2 * 2 ^ (e2 - min e1 e2).toNat)

/-- IEEE `<` on doubles: false whenever one side is NaN. -/
def f64Lt : F64 → F64 → Bool
  | .nan, _ => false
  | _, .nan => false
  | _, .neginf => false
  | .neginf, _ => true
  | .inf, _ => false
  | _, .inf => true
  | .finite m1 e1, .finite m2 e2 =>
    decide (m1 * 2 ^ (e1 - min e1 e2).toNat < m2 * 2 ^ (e2 - min e1 e2).toNat)

/-- IEEE `==` on doubles (`PartialEq` for `f64`): false whenever one side is
NaN, value comparison otherwise. -/
def f64EqB : F64 → F64 → Bool
  | .nan, _ => false
  | _, .nan => false
  | .inf, .inf => true
  | .neginf, .neginf => true
  | .finite m1 e1, .finite m2 e2 =>
    decide (m1 * 2 ^ (e1 - min e1 e2).toNat = m2 * 2 ^ (e2 - min e1 e2).toNat)
  | _, _ => false

/-- `f64::to_bits`: the IEEE-754 bit pattern of the double (sign bit, biased
exponent, mantissa field).  The merged zero yields the positive-zero
pattern, and NaN the canonical quiet-NaN pattern Rust's arithmetic
produces. -/
def f64ToBits : F64 → Nat
  | .inf => 0x7FF0000000000000
  | .neginf => 0xFFF0000000000000
  | .nan => 0x7FF8000000000000
  | .finite m e =>
    if m = 0 then 0
    else
      let s : Nat := if m < 0 then 2 ^ 63 else 0
      let ma := m.natAbs
      if ma < 2 ^ 52 then s + ma
      else s + (e + 1075).toNat * 2 ^ 52 + (ma - 2 ^ 52)

/-- Two's-complement wrap-around of an `i64` arithmetic result: the
release-mode overflow semantics of the source's integer arithmetic. -/
def i64Wrap (n : Int) : Int := (n + 2 ^ 63) % 2 ^ 64 - 2 ^ 63

/-- ASCII lowercase of a character, for the case-insensitive special float
literals of `f64::from_str`. -/
def asciiLower (c : Char) : Char :=
  if 65 ≤ c.toNat ∧ c.toNat ≤ 90 then Char.ofNat (c.toNat + 32) else c

/-- Model of Rust `f64::from_str`: the special literals `inf`, `infinity`
and `nan` (case-insensitive, optionally signed), otherwise the decimal
literal of the `parseF64` grammar correctly rounded to the nearest
binary64, as Rust's conversion is. -/
def strToF64 (s : String) : Option F64 :=
  let lower := s.data.map asciiLower
  let (neg, body) : Bool × List Char :=
    match lower with
    | '-' :: cs => (true, cs)
    | '+' :: cs => (false, cs)
    | cs => (false, cs)
  if body = "inf".data ∨ body = "infinity".data then
    some (if neg then .neginf else .inf)
  else if body = "nan".data then some .nan
  else
    match parseF64 s with
    | some q => some (roundQuotF64 q.num (q.den : Int))
    | none => none

/-- The `ColorFormat` enum from `device_description/property_format.rs`. -/
inductive ColorFormat where
  | Rgb
  | Hsv
  | Xyz
deriving DecidableEq, Repr

/-- The `HomieColorValue` enum from `value.rs`; `f64` components are modelled
as exact rationals. -/
inductive HomieColorValue where
  | RGB (r g b : Int)
  | HSV (h s v : Int)
  | XYZ (x y z : Rat)
deriving DecidableEq, Repr

/-- The `HomieColorValue::color_format` method. -/
def HomieColorValue.color_format : HomieColorValue → ColorFormat
  | .RGB _ _ _ => .Rgb
  | .HSV _ _ _ => .Hsv
  | .XYZ _ _ _ => .Xyz

/-! ## `value.rs` / `device_description`: formats and descriptions -/

/-- The `IntegerRange` struct (`number_ranges.rs`); `i64` bounds as `Int`. -/
structure IntegerRange where
  min : Option Int
  max : Option Int
  step : Option Int
deriving DecidableEq, Repr

/-- The `FloatRange` struct (`number_ranges.rs`); `f64` bounds as exact
binary64 values. -/
structure FloatRange where
  min : Option F64
  max : Option F64
  step : Option F64
deriving DecidableEq, Repr

/-- The `BooleanFormat` struct (`property_format.rs`). -/
structure BooleanFormat where
  false_val : String
  true_val : String
deriving DecidableEq, Repr

/-- The `HomiePropertyFormat` enum (`property_format.rs`). -/
inductive HomiePropertyFormat where
  | FloatRange (r : FloatRange)
  | IntegerRange (r : IntegerRange)
  | Enum (values : List String)
  | Color (formats : List ColorFormat)
  | Boolean (bf : BooleanFormat)
  | Json (data : String)
  | Custom (data : String)
  | Empty
deriving DecidableEq, Repr

/-- `IntegerRange::is_empty`. -/
def IntegerRange.is_empty (r : IntegerRange) : Bool :=
  r.min.isNone && r.max.isNone && r.step.isNone

/-- `FloatRange::is_empty`. -/
def FloatRange.is_empty (r : FloatRange) : Bool :=
  r.min.isNone && r.max.isNone && r.step.isNone

/-- `BooleanFormat::is_empty`. -/
def BooleanFormat.is_empty (bf : BooleanFormat) : Bool :=
  bf.false_val.isEmpty && bf.true_val.isEmpty

/-- `HomiePropertyFormat::is_empty`. -/
def HomiePropertyFormat.is_empty : HomiePropertyFormat → Bool
  | .FloatRange r => r.is_empty
  | .IntegerRange r => r.is_empty
  | .Enum values => values.isEmpty
  | .Color formats => formats.isEmpty
  | .Boolean bf => bf.is_empty
  | .Json data => data.isEmpty
  | .Custom data => data.isEmpty
  | .Empty => true

/-- The `HomieDataType` enum (`lib.rs`). -/
inductive HomieDataType where
  | Integer
  | Float
  | Boolean
  | String
  | Enum
  | Color
  | Datetime
  | Duration
  | JSON
deriving DecidableEq, Repr

/-- The `HomiePropertyDescription` struct (`device_description/mod.rs`). -/
structure HomiePropertyDescription where
  name : Option String
  datatype : HomieDataType
  format : HomiePropertyFormat
  settable : Bool
  retained : Bool
  unit : Option String
deriving DecidableEq, Repr

/-! ## `value.rs`: conversion errors -/

/-- The `Homie5ValueConversionError` enum from `value.rs`. -/
inductive Homie5ValueConversionError where
  | InvalidColorFormat (value : String)
  | InvalidIntegerFormat (value : String)
  | IntegerOutOfRange (value : Int) (range : IntegerRange)
  | InvalidFloatFormat (value : String)
  | FloatOutOfRange (value : F64) (range : FloatRange)
  | InvalidEnumFormat (value : String) (allowed : List String)
  | InvalidDateTimeFormat (value : String)
  | InvalidDurationFormat (value : String)
  | UnsupportedColorFormat (format : ColorFormat) (formats : List ColorFormat)
  | InvalidBooleanFormat (value : String)
  | JsonParseError (error : String)
deriving DecidableEq, Repr

/-- The subset of the `Homie5ProtocolError` enum (`error.rs`) reachable from
the functions embedded here. -/
inductive Homie5ProtocolError where
  | InvalidTopic
  | PayloadConversionError
  | InvalidDeviceDescription
  | InvalidPayload
  | InvalidHomieValue (e : Homie5ValueConversionError)
deriving DecidableEq, Repr

/-! ## `value.rs`: color parsing (`impl FromStr for HomieColorValue`) -/

/-- The `FromStr` implementation for `HomieColorValue` (`value.rs` lines
188-223): split on a comma, dispatch on the first token, parse the required
components and ignore any further tokens; every failure is
`InvalidColorFormat` carrying the whole input. -/
def homieColorValueFromStr (s : String) : Except Homie5ValueConversionError HomieColorValue :=
  match splitOnChar ',' s with
  | "rgb" :: t1 :: t2 :: t3 :: _ =>
    match parseI64 t1, parseI64 t2, parseI64 t3 with
    | some r, some g, some b => .ok (.RGB r g b)
    | _, _, _ => .error (.InvalidColorFormat s)
  | "hsv" :: t1 :: t2 :: t3 :: _ =>
    match parseI64 t1, parseI64 t2, parseI64 t3 with
    | some h, some sa, some v => .ok (.HSV h sa v)
    | _, _, _ => .error (.InvalidColorFormat s)
  | "xyz" :: t1 :: t2 :: _ =>
    match parseF64 t1, parseF64 t2 with
    | some x, some y => .ok (.XYZ x y (1 - x - y))
    | _, _ => .error (.InvalidColorFormat s)
  | _ => .error (.InvalidColorFormat s)

/-- Final optional group of the duration regex, matching the tail of the
input against the pattern seconds-digits followed by the letter S, or
nothing at all. -/
def durSecondsPart (cs : List Char) : Option Nat :=
  match cs with
  | [] => some 0
  | _ =>
    let (d, r) := cs.span isDigitChar
    match r with
    | ['S'] => if d.isEmpty then none else some (digitsToNat d)
    | _ => none

/-- Middle optional groups of the duration regex: minutes (digits then M)
followed by the seconds group. -/
def durMinutesPart (cs : List Char) : Option (Nat × Nat) :=
  let (d, r) := cs.span isDigitChar
  match r with
  | 'M' :: rest =>
    if d.isEmpty then none
    else (durSecondsPart rest).map (fun s => (digitsToNat d, s))
  | _ => (durSecondsPart cs).map (fun s => (0, s))

/-- Leading optional group of the duration regex: hours (digits then H)
followed by the minutes and seconds groups. -/
def durHoursPart (cs : List Char) : Option (Nat × Nat × Nat) :=
  let (d, r) := cs.span isDigitChar
  match r with
  | 'H' :: rest =>
    if d.isEmpty then none
    else (durMinutesPart rest).map (fun ms => (digitsToNat d, ms))
  | _ => (durMinutesPart cs).map (fun ms => (0, ms))

/-- `HomieValue::parse_duration` (`value.rs` lines 570-580): the input must
match the anchored regex PT(digits H)?(digits M)?(digits S)? with every
group optional; the matched groups (default 0) are converted to total
seconds, any non-match is `InvalidDurationFormat`.  The deterministic
group decomposition above is equivalent to the regex because each digit
run must be directly followed by its group letter.  Modelling boundary:
the source converts each digit group with `.parse::<i64>().unwrap()`,
which panics (aborts) on a group of `2 ^ 63` or more, while this embedding
keeps the exact natural value; no theorem below touches an input with such
a group (the round-trip fragment is restricted to sub-day durations, whose
displays reparse well within i64). -/
def parse_duration (s : String) : Except Homie5ValueConversionError Int :=
  match s.data with
  | 'P' :: 'T' :: rest =>
    match durHoursPart rest with
    | some (h, m, sec) => .ok ((h : Int) * 3600 + (m : Int) * 60 + (sec : Int))
    | none => .error (.InvalidDurationFormat s)
  | _ => .error (.InvalidDurationFormat s)

/-- UTC timestamp model: seconds since the Unix epoch and nanoseconds. -/
structure DateTimeUtc where
  secs : Int
  nanos : Nat
deriving DecidableEq, Repr

/-- Days from the civil epoch 1970-01-01 for a proleptic Gregorian date
(the standard days-from-civil computation used by calendar libraries). -/
def daysFromCivil (y m d : Int) : Int :=
  let y := if m ≤ 2 then y - 1 else y
  let era := (if 0 ≤ y then y else y - 399) / 400
  let yoe := y - era * 400
  let mp := (m + 9) % 12
  let doy := (153 * mp + 2) / 5 + d - 1
  let doe := yoe * 365 + yoe / 4 - yoe / 100 + doy
  era * 146097 + doe - 719468

/-- Number of days in a month of the proleptic Gregorian calendar. -/
def daysInMonth (y m : Int) : Int :=
  if m = 2 then (if (y % 4 = 0 ∧ y % 100 ≠ 0) ∨ y % 400 = 0 then 29 else 28)
  else if m = 4 ∨ m = 6 ∨ m = 9 ∨ m = 11 then 30 else 31

/-- Range validity of a civil date-time. -/
def civilOk (y mo d h mi se : Int) : Bool :=
  1 ≤ mo ∧ mo ≤ 12 ∧ 1 ≤ d ∧ d ≤ daysInMonth y mo ∧
    0 ≤ h ∧ h ≤ 23 ∧ 0 ≤ mi ∧ mi ≤ 59 ∧ 0 ≤ se ∧ se ≤ 59

/-- Seconds since the epoch of a civil UTC date-time. -/
def civilSecs (y mo d h mi se : Int) : Int :=
  daysFromCivil y mo d * 86400 + h * 3600 + mi * 60 + se

/-- Parse exactly `k` decimal digits. -/
def parseFixedDigits (k : Nat) (cs : List Char) : Option (Nat × List Char) :=
  let (d, r) := (cs.take k, cs.drop k)
  if d.length = k ∧ d.all isDigitChar then some (digitsToNat d, r) else none

/-- Parse an optional fractional-second part (dot followed by up to nine
digits), returning the value in nanoseconds. -/
def parseFracPart (cs : List Char) : Option (Nat × List Char) :=
  match cs with
  | '.' :: rest =>
    let (d, r) := rest.span isDigitChar
    if d.isEmpty ∨ 9 < d.length then none
    else some (digitsToNat d * 10 ^ (9 - d.length), r)
  | _ => some (0, cs)

/-- Parse the date-and-time body used by both the RFC 3339 and the naive
patterns: four-digit year, month, day, the literal T, then
hours:minutes:seconds. -/
def parseCivilBody (cs : List Char) : Option ((Int × Int × Int × Int × Int × Int) × List Char) :=
  match parseFixedDigits 4 cs with
  | none => none
  | some (y, r1) =>
  match r1 with
  | '-' :: r2 =>
    match parseFixedDigits 2 r2 with
    | none => none
    | some (mo, r3) =>
    match r3 with
    | '-' :: r4 =>
      match parseFixedDigits 2 r4 with
      | none => none
      | some (d, r5) =>
      match r5 with
      | 'T' :: r6 =>
        match parseFixedDigits 2 r6 with
        | none => none
        | some (h, r7) =>
        match r7 with
        | ':' :: r8 =>
          match parseFixedDigits 2 r8 with
          | none => none
          | some (mi, r9) =>
          match r9 with
          | ':' :: r10 =>
            match parseFixedDigits 2 r10 with
            | none => none
            | some (se, r11) =>
              some ((y, mo, d, h, mi, se), r11)
          | _ => none
        | _ => none
      | _ => none
    | _ => none
  | _ => none

/-- Strict RFC 3339 parsing (`chrono::DateTime::parse_from_rfc3339`): civil
body, optional fraction, then a Z or a signed hour:minute offset. -/
def rfc3339Parse (s : String) : Option DateTimeUtc :=
  match parseCivilBody s.data with
  | none => none
  | some ((y, mo, d, h, mi, se), r) =>
  match parseFracPart r with
  | none => none
  | some (ns, r1) =>
  let finish (offsetSecs : Int) (tail : List Char) : Option DateTimeUtc :=
    if tail.isEmpty ∧ civilOk y mo d h mi se then
      some { secs := civilSecs y mo d h mi se - offsetSecs, nanos := ns }
    else none
  match r1 with
  | 'Z' :: tail => finish 0 tail
  | 'z' :: tail => finish 0 tail
  | sign :: rest =>
    if sign = '+' ∨ sign = '-' then
      match parseFixedDigits 2 rest with
      | none => none
      | some (oh, r2) =>
      match r2 with
      | ':' :: r3 =>
        match parseFixedDigits 2 r3 with
        | none => none
        | some (om, r4) =>
          if oh ≤ 23 ∧ om ≤ 59 then
            let off : Int := (oh : Int) * 3600 + (om : Int) * 60
            finish (if sign = '-' then -off else off) r4
          else none
      | _ => none
    else none
  | _ => none

/-- Naive pattern parsing (chrono format strings used as fallbacks in
`flexible_datetime_parser`): civil body with no offset, a fractional part
allowed only by the second fallback. -/
def naiveDatetimeParse (cs : List Char) (withFrac : Bool) : Option DateTimeUtc :=
  match parseCivilBody cs with
  | none => none
  | some ((y, mo, d, h, mi, se), r) =>
    let fr : Option (Nat × List Char) :=
      if withFrac then parseFracPart r else some (0, r)
    match fr with
    | none => none
    | some (ns, r1) =>
      if r1.isEmpty ∧ civilOk y mo d h mi se then
        some { secs := civilSecs y mo d h mi se, nanos := ns }
      else none

/-- `HomieValue::flexible_datetime_parser` (`value.rs` lines 584-617; the
Lean name drops the trailing word of the Rust name): RFC 3339 first, then
the two naive fallback patterns applied to the input with one trailing Z
stripped, interpreting the result as UTC; the error carries the stripped
string. -/
def flexibleDatetimeParse (s : String) : Except Homie5ValueConversionError DateTimeUtc :=
  match rfc3339Parse s with
  | some dt => .ok dt
  | none =>
    let s2 := if s.endsWith "Z" then s.dropRight 1 else s
    match naiveDatetimeParse s2.data false with
    | some dt => .ok dt
    | none =>
      match naiveDatetimeParse s2.data true with
      | some dt => .ok dt
      | none => .error (.InvalidDateTimeFormat s2)

/-! ## `serde_json` value model

`HomieValue::JSON` holds a `serde_json::Value`.  The model below is a
JSON syntax parser into a value tree with objects kept in sorted key
order (the BTreeMap representation used by serde_json in its default
configuration, duplicate keys resolved to the last occurrence); numbers
are stored as exact rationals instead of the u64/i64/f64 triage of
serde_json, and surrogate-pair escapes are not combined.  No theorem
below depends on this branch of `HomieValue::parse`. -/

/-- JSON value tree (model of `serde_json::Value`). -/
inductive Json where
  | null
  | bool (b : Bool)
  | num (q : Rat)
  | str (s : String)
  | arr (items : List Json)
  | obj (entries : List (String × Json))

/-- JSON whitespace skipping. -/
def jsonSkipWs (cs : List Char) : List Char :=
  cs.dropWhile (fun c => c = ' ' ∨ c = '\t' ∨ c = '\n' ∨ c = '\r')

/-- Value of a hexadecimal digit. -/
def hexVal (c : Char) : Option Nat :=
  let n := c.toNat
  if 48 ≤ n ∧ n ≤ 57 then some (n - 48)
  else if 97 ≤ n ∧ n ≤ 102 then some (n - 87)
  else if 65 ≤ n ∧ n ≤ 70 then some (n - 55)
  else none

/-- JSON string body after the opening quote. -/
def jsonParseStringBody : List Char → Option (List Char × List Char)
  | [] => none
  | '"' :: rest => some ([], rest)
  | '\\' :: e :: rest =>
    let simple : Option Char :=
      if e = '"' then some '"' else if e = '\\' then some '\\'
      else if e = '/' then some '/' else if e = 'b' then some (Char.ofNat 8)
      else if e = 'f' then some (Char.ofNat 12) else if e = 'n' then some '\n'
      else if e = 'r' then some '\r' else if e = 't' then some '\t' else none
    match simple with
    | some c => (jsonParseStringBody rest).map (fun (cs, r) => (c :: cs, r))
    | none =>
      if e = 'u' then
        match rest with
        | h1 :: h2 :: h3 :: h4 :: rest4 =>
          match hexVal h1, hexVal h2, hexVal h3, hexVal h4 with
          | some a, some b, some c, some d =>
            let v := ((a * 16 + b) * 16 + c) * 16 + d
            (jsonParseStringBody rest4).map (fun (cs, r) => (Char.ofNat v :: cs, r))
          | _, _, _, _ => none
        | _ => none
      else none
  | c :: rest =>
    if c.toNat < 0x20 then none
    else (jsonParseStringBody rest).map (fun (cs, r) => (c :: cs, r))

/-- JSON number grammar, returning the exact value. -/
def jsonParseNumber (cs : List Char) : Option (Rat × List Char) :=
  let (neg, body) : Bool × List Char :=
    match cs with
    | '-' :: rest => (true, rest)
    | _ => (false, cs)
  let (ipart, r1) := body.span isDigitChar
  let intOk : Bool :=
    match ipart with
    | [] => false
    | ['0'] => true
    | c :: _ => c ≠ '0'
  if !intOk then none
  else
    let (fracDigits, r2) : List Char × List Char :=
      match r1 with
      | '.' :: rest => rest.span isDigitChar
      | _ => ([], r1)
    let fracPresent : Bool := match r1 with | '.' :: _ => true | _ => false
    if fracPresent ∧ fracDigits.isEmpty then none
    else
      let r2' := if fracPresent then r2 else r1
      let (expVal, r3) : Option Int × List Char :=
        match r2' with
        | e :: tail =>
          if e = 'e' ∨ e = 'E' then
            let (sgn, ds) : Bool × List Char :=
              match tail with
              | '+' :: t => (false, t)
              | '-' :: t => (true, t)
              | _ => (false, tail)
            let (ed, r4) := ds.span isDigitChar
            if ed.isEmpty then (none, r3sink tail)
            else (some (if sgn then -(digitsToNat ed : Int) else (digitsToNat ed : Int)), r4)
          else (some 0, r2')
        | [] => (some 0, r2')
      match expVal with
      | none => none
      | some ex =>
        let m : Nat := digitsToNat (ipart ++ fracDigits)
        let mag : Rat := (m : Rat) * (10 : Rat) ^ (ex - (fracDigits.length : Int))
        some ((if neg then -mag else mag), r3)
where
  /-- Placeholder continuation for the malformed-exponent case (the paired
  `none` makes the result a failure whatever this returns). -/
  r3sink (cs : List Char) : List Char := cs

/-- Sorted insertion into a JSON object (BTreeMap semantics: ordered by the
byte order of the key, duplicate keys overwritten). -/
def jsonObjInsert (k : String) (v : Json) : List (String × Json) → List (String × Json)
  | [] => [(k, v)]
  | (k0, v0) :: rest =>
    if k = k0 then (k, v) :: rest
    else if strLe k k0 then (k, v) :: (k0, v0) :: rest
    else (k0, v0) :: jsonObjInsert k v rest

mutual

/-- Fuel-bounded JSON value parsing. -/
def jsonParseValue : Nat → List Char → Option (Json × List Char)
  | 0, _ => none
  | fuel + 1, cs =>
    match jsonSkipWs cs with
    | 'n' :: 'u' :: 'l' :: 'l' :: rest => some (.null, rest)
    | 't' :: 'r' :: 'u' :: 'e' :: rest => some (.bool true, rest)
    | 'f' :: 'a' :: 'l' :: 's' :: 'e' :: rest => some (.bool false, rest)
    | '"' :: rest =>
      (jsonParseStringBody rest).map (fun (cs1, r) => (.str (String.mk cs1), r))
    | '[' :: rest =>
      (match jsonSkipWs rest with
       | ']' :: r => some (.arr [], r)
       | other => jsonParseArrayItems fuel other [])
    | '{' :: rest =>
      (match jsonSkipWs rest with
       | '}' :: r => some (.obj [], r)
       | other => jsonParseObjMembers fuel other [])
    | other => (jsonParseNumber other).map (fun (q, r) => (.num q, r))

/-- Fuel-bounded parsing of the remaining array items. -/
def jsonParseArrayItems : Nat → List Char → List Json → Option (Json × List Char)
  | 0, _, _ => none
  | fuel + 1, cs, acc =>
    match jsonParseValue fuel cs with
    | none => none
    | some (v, r) =>
      match jsonSkipWs r with
      | ',' :: r1 => jsonParseArrayItems fuel r1 (v :: acc)
      | ']' :: r1 => some (.arr (v :: acc).reverse, r1)
      | _ => none

/-- Fuel-bounded parsing of the remaining object members. -/
def jsonParseObjMembers : Nat → List Char → List (String × Json) → Option (Json × List Char)
  | 0, _, _ => none
  | fuel + 1, cs, acc =>
    match jsonSkipWs cs with
    | '"' :: rest =>
      (match jsonParseStringBody rest with
       | none => none
       | some (kcs, r) =>
         match jsonSkipWs r with
         | ':' :: r1 =>
           (match jsonParseValue fuel r1 with
            | none => none
            | some (v, r2) =>
              let acc1 := jsonObjInsert (String.mk kcs) v acc
              match jsonSkipWs r2 with
              | ',' :: r3 => jsonParseObjMembers fuel r3 acc1
              | '}' :: r3 => some (.obj acc1, r3)
              | _ => none)
         | _ => none)
    | _ => none

end

/-- `serde_json::from_str::<serde_json::Value>`: parse one JSON value and
require only whitespace after it. -/
def serdeJsonFromStr (s : String) : Option Json :=
  match jsonParseValue (s.data.length + 1) s.data with
  | some (v, rest) => if (jsonSkipWs rest).isEmpty then some v else none
  | none => none

/-! ## `value.rs`: the `HomieValue` enum and its operations -/

/-- The `HomieValue` enum (`value.rs`): `i64` as `Int`, `f64` as the exact
binary64 model `F64`, `chrono::DateTime<Utc>` as `DateTimeUtc`,
`chrono::Duration` as whole seconds (`parse_duration` only ever produces
whole seconds). -/
inductive HomieValue where
  | Empty
  | String (value : String)
  | Integer (value : Int)
  | Float (value : F64)
  | Bool (value : Bool)
  | Enum (value : String)
  | Color (value : HomieColorValue)
  | DateTime (value : DateTimeUtc)
  | Duration (secs : Int)
  | JSON (value : Json)

/-- `HomieValue::validate_int` (`value.rs` lines 640-660): when the format is
an integer range, the source computes
`((value - base) as f64 / s as f64).round() as i64 * s + base` with
`base = min.or(max).unwrap_or(value)` and requires the result to lie within
the present bounds.  The `f64` steps are the exact binary64 operations, the
`as` conversions the exact rounding and saturating casts, and the `i64`
subtraction, multiplication and addition wrap as release-mode Rust
arithmetic does. -/
def HomieValue.validate_int (value : Int) (property_desc : HomiePropertyDescription) :
    Except Homie5ValueConversionError Int :=
  match property_desc.format with
  | .IntegerRange range =>
    let base := ((range.min.or range.max).getD value)
    let rounded :=
      match range.step with
      | some s =>
        if 0 < s then
          i64Wrap (i64Wrap (f64CastToI64 (f64RoundHalfAway
            (f64Div (intToF64 (i64Wrap (value - base))) (intToF64 s))) * s) + base)
        else value
      | none => value
    if (range.min.all fun m => decide (m ≤ rounded)) &&
        (range.max.all fun m => decide (rounded ≤ m)) then
      .ok rounded
    else
      .error (.IntegerOutOfRange value range)
  | _ => .ok value

/-- `HomieValue::validate_float` (`value.rs` lines 619-638): the same
quantization over the binary64 operations,
`((value - base) / s).round() * s + base`, then the bound checks (false on
NaN, as IEEE comparison is). -/
def HomieValue.validate_float (value : F64) (property_desc : HomiePropertyDescription) :
    Except Homie5ValueConversionError F64 :=
  match property_desc.format with
  | .FloatRange range =>
    let base := ((range.min.or range.max).getD value)
    let rounded :=
      match range.step with
      | some s =>
        if f64Lt (.finite 0 0) s then
          f64Add (f64Mul (f64RoundHalfAway (f64Div (f64Sub value base) s)) s) base
        else value
      | none => value
    if (range.min.all fun m => f64Le m rounded) &&
        (range.max.all fun m => f64Le rounded m) then
      .ok rounded
    else
      .error (.FloatOutOfRange value range)
  | _ => .ok value

/-- `HomieValue::parse` (`value.rs` lines 495-568): dispatch on the declared
datatype, parse the literal, apply the format checks, and wrap any
conversion error in `Homie5ProtocolError::InvalidHomieValue`.  The
commented-out remapping of a leading zero byte to `HomieValue::Empty`
present in the source is likewise absent here. -/
def homieValueParse (raw : String) (property_desc : HomiePropertyDescription) :
    Except Homie5ProtocolError HomieValue :=
  let conv : Except Homie5ValueConversionError HomieValue :=
    match property_desc.datatype with
    | .Integer =>
      match parseI64 raw with
      | none => .error (.InvalidIntegerFormat raw)
      | some d => (HomieValue.validate_int d property_desc).map HomieValue.Integer
    | .Float =>
      match strToF64 raw with
      | none => .error (.InvalidFloatFormat raw)
      | some d => (HomieValue.validate_float d property_desc).map HomieValue.Float
    | .Boolean =>
      if raw = "true" then .ok (.Bool true)
      else if raw = "false" then .ok (.Bool false)
      else .error (.InvalidBooleanFormat raw)
    | .String => .ok (.String raw)
    | .Enum =>
      match property_desc.format with
      | .Enum values =>
        if values.contains raw then .ok (.Enum raw)
        else .error (.InvalidEnumFormat raw values)
      | _ => .ok (.Enum raw)
    | .Color =>
      match homieColorValueFromStr raw with
      | .error e => .error e
      | .ok color_value =>
        if !property_desc.format.is_empty then
          match property_desc.format with
          | .Color formats =>
            (match color_value with
             | .RGB _ _ _ =>
               if formats.contains .Rgb then .ok (.Color color_value)
               else .error (.UnsupportedColorFormat color_value.color_format formats)
             | .HSV _ _ _ =>
               if formats.contains .Hsv then .ok (.Color color_value)
               else .error (.UnsupportedColorFormat color_value.color_format formats)
             | .XYZ _ _ _ =>
               if formats.contains .Xyz then .ok (.Color color_value)
               else .error (.UnsupportedColorFormat color_value.color_format formats))
          | _ => .ok (.Color color_value)
        else .ok (.Color color_value)
    | .Datetime => (flexibleDatetimeParse raw).map HomieValue.DateTime
    | .Duration => (parse_duration raw).map HomieValue.Duration
    | .JSON =>
      match serdeJsonFromStr raw with
      | some v => .ok (.JSON v)
      | none => .error (.JsonParseError raw)
  conv.mapError Homie5ProtocolError.InvalidHomieValue

/-- `HomieValue::validate` (`value.rs` lines 662-695): re-check an already
constructed value against a description without re-parsing. -/
def homieValueValidate (v : HomieValue) (property_desc : HomiePropertyDescription) : Bool :=
  match v, property_desc.datatype with
  | .Empty, .String => true
  | .String _, .String => true
  | .Integer value, .Integer =>
    match HomieValue.validate_int value property_desc with
    | .ok v1 => v1 = value
    | .error _ => false
  | .Float value, .Float =>
    match HomieValue.validate_float value property_desc with
    | .ok v1 => f64EqB v1 value
    | .error _ => false
  | .Bool _, .Boolean => true
  | .Enum value, .Enum =>
    match property_desc.format with
    | .Enum variants => variants.contains value
    | _ => false
  | .Color value, .Color =>
    match property_desc.format with
    | .Color color_formats =>
      (match value with
       | .RGB _ _ _ => color_formats.contains ColorFormat.Rgb
       | .HSV _ _ _ => color_formats.contains ColorFormat.Hsv
       | .XYZ _ _ _ => color_formats.contains ColorFormat.Xyz)
    | _ => false
  | .DateTime _, .Datetime => true
  | .Duration _, .Duration => true
  | .JSON _, .JSON => true
  | _, _ => false

/-- `homie_str_to_vecu8` (`value.rs` lines 412-421): the byte payload of a
string value; the empty string becomes the single zero byte. -/
def homie_str_to_vecu8 (value : String) : List Nat :=
  if value.isEmpty then [0] else utf8Encode value

/-! ## `homie_id.rs` and the description model (`device_description/mod.rs`) -/

/-- The `HomieID` newtype (`homie_id.rs`): a validated identifier string. -/
structure HomieID where
  id : String
deriving DecidableEq, Repr

/-- `HomieID::validate` (`homie_id.rs`): non-empty and only lowercase ASCII
letters, digits and hyphens. -/
def homieIDValid (s : String) : Bool :=
  !s.isEmpty && s.data.all (fun c =>
    (97 ≤ c.toNat ∧ c.toNat ≤ 122) ∨ (48 ≤ c.toNat ∧ c.toNat ≤ 57) ∨ c = '-')

/-- The `HomieNodeDescription` struct (`device_description/mod.rs`); the
`HashMap` of properties is modelled as an association list with distinct
keys. -/
structure HomieNodeDescription where
  name : Option String
  type : Option String
  properties : List (HomieID × HomiePropertyDescription)
deriving DecidableEq, Repr

/-- The `HomieDeviceDescription` struct (`device_description/mod.rs`); the
`HashMap` of nodes is modelled as an association list with distinct keys. -/
structure HomieDeviceDescription where
  name : Option String
  version : Int
  homie : String
  children : List HomieID
  root : Option HomieID
  parent : Option HomieID
  extensions : List String
  nodes : List (HomieID × HomieNodeDescription)
deriving DecidableEq, Repr

/-! ## `device_description/property_format.rs` and `number_ranges.rs`: format parsing -/

/-- The `HomiePropertyFormatError` enum (`property_format.rs`). -/
inductive HomiePropertyFormatError where
  | RangeFormatError
  | ColorFormatError
  | BooleanFormatError
deriving DecidableEq, Repr

/-- One colon-separated component of a numeric range format string: empty
means absent, otherwise the component must parse with the given parser. -/
def parseRangeComp (p : String → Option α) (s : String) : Option (Option α) :=
  if s.isEmpty then some none
  else match p s with
    | some v => some (some v)
    | none => none

/-- `IntegerRange::validate_integer_range` (`number_ranges.rs`). -/
def validate_integer_range (min max step : Option Int) : Bool :=
  if step.any (fun s => decide (s ≤ 0)) then false
  else
    match min, max, step with
    | some mn, some mx, none => !decide (mn > mx)
    | some mn, some mx, some st => !(decide (mn > mx) || decide (st > mx - mn))
    | _, _, _ => true

/-- `FloatRange::validate_float_range` (`number_ranges.rs`), over the exact
binary64 comparisons and subtraction. -/
def validate_float_range (min max step : Option F64) : Bool :=
  if step.any (fun s => f64Le s (.finite 0 0)) then false
  else
    match min, max, step with
    | some mn, some mx, none => !f64Lt mx mn
    | some mn, some mx, some st => !(f64Lt mx mn || f64Lt (f64Sub mx mn) st)
    | _, _, _ => true

/-- `IntegerRange::parse` (`number_ranges.rs` lines 167-205): at most two
colons, each non-empty slice parsed as an i64, then range validation.  The
slice-by-slice loop of the source is equivalent to splitting on the colon
character. -/
def IntegerRange.parse (raw : String) : Except HomiePropertyFormatError IntegerRange :=
  let parts := splitOnChar ':' raw
  if 3 < parts.length then .error .RangeFormatError
  else
    match (parts ++ List.replicate (3 - parts.length) "").mapM (parseRangeComp parseI64) with
    | some [mn, mx, st] =>
      if validate_integer_range mn mx st then .ok ⟨mn, mx, st⟩
      else .error .RangeFormatError
    | _ => .error .RangeFormatError

/-- `FloatRange::parse` (`number_ranges.rs` lines 45-83), analogous. -/
def FloatRange.parse (raw : String) : Except HomiePropertyFormatError FloatRange :=
  let parts := splitOnChar ':' raw
  if 3 < parts.length then .error .RangeFormatError
  else
    match (parts ++ List.replicate (3 - parts.length) "").mapM (parseRangeComp strToF64) with
    | some [mn, mx, st] =>
      if validate_float_range mn mx st then .ok ⟨mn, mx, st⟩
      else .error .RangeFormatError
    | _ => .error .RangeFormatError

/-- `FromStr` for `ColorFormat` (`property_format.rs`). -/
def colorFormatFromStr (s : String) : Except HomiePropertyFormatError ColorFormat :=
  if s = "rgb" then .ok .Rgb
  else if s = "hsv" then .ok .Hsv
  else if s = "xyz" then .ok .Xyz
  else .error .ColorFormatError

/-- `FromStr` for `BooleanFormat` (`property_format.rs`): exactly two
non-empty, distinct comma-separated tokens. -/
def booleanFormatFromStr (s : String) : Except HomiePropertyFormatError BooleanFormat :=
  match splitOnChar ',' s with
  | [t0, t1] =>
    if t0.isEmpty || t1.isEmpty || t0 = t1 then .error .BooleanFormatError
    else .ok ⟨t0, t1⟩
  | _ => .error .BooleanFormatError

/-- `HomiePropertyFormat::parse` (`property_format.rs` lines 144-185). -/
def HomiePropertyFormat.parse (raw : String) (datatype : HomieDataType) :
    Except HomiePropertyFormatError HomiePropertyFormat :=
  if raw.isEmpty then .ok .Empty
  else
    match datatype with
    | .Float =>
      (FloatRange.parse raw).map fun fr =>
        if fr.is_empty then .Empty else .FloatRange fr
    | .Integer =>
      (IntegerRange.parse raw).map fun ir =>
        if ir.is_empty then .Empty else .IntegerRange ir
    | .Enum => .ok (.Enum (splitOnChar ',' raw))
    | .Color =>
      ((splitOnChar ',' raw).mapM fun tok => (colorFormatFromStr tok).toOption).elim
        (.error .ColorFormatError) (fun formats => .ok (.Color formats))
    | .Boolean => (booleanFormatFromStr raw).map HomiePropertyFormat.Boolean
    | .JSON => .ok (.Json raw)
    | _ => .ok (.Custom raw)

/-! ## serde deserialization model for the description document

`parse_mqtt_message` deserializes the `$description` payload with
serde_json into `HomieDeviceDescription`; the model below reproduces the
derived and hand-written `Deserialize` implementations on top of the JSON
value model (field defaults per the serde attributes in
`device_description/mod.rs`, the format string parsed against the
datatype, ids validated as Homie IDs).  Duplicate-field errors and the
u64/i64/f64 number triage of serde are not modelled. -/

/-- Look up a field of a JSON object model. -/
def jsonGetField (entries : List (String × Json)) (k : String) : Option Json :=
  (entries.find? (fun e => e.1 = k)).map Prod.snd

/-- A JSON value as a string. -/
def jsonAsStr : Json → Option String
  | .str s => some s
  | _ => none

/-- A JSON value as a boolean. -/
def jsonAsBool : Json → Option Bool
  | .bool b => some b
  | _ => none

/-- A JSON value as an i64. -/
def jsonAsI64 : Json → Option Int
  | .num q => if q.den = 1 ∧ -(2 ^ 63) ≤ q.num ∧ q.num < 2 ^ 63 then some q.num else none
  | _ => none

/-- An optional string field: absent or null gives `none`. -/
def jsonOptStrField (entries : List (String × Json)) (k : String) : Option (Option String) :=
  match jsonGetField entries k with
  | none => some none
  | some .null => some none
  | some j => (jsonAsStr j).map some

/-- `FromStr` for `HomieDataType` (`lib.rs` lines 157-174). -/
def homieDataTypeFromStr (s : String) : Option HomieDataType :=
  if s = "integer" then some .Integer
  else if s = "float" then some .Float
  else if s = "boolean" then some .Boolean
  else if s = "string" then some .String
  else if s = "enum" then some .Enum
  else if s = "color" then some .Color
  else if s = "datetime" then some .Datetime
  else if s = "duration" then some .Duration
  else if s = "json" then some .JSON
  else none

/-- Deserialization of a `HomieID` (validated string). -/
def homieIDFromJson : Json → Option HomieID
  | .str s => if homieIDValid s then some ⟨s⟩ else none
  | _ => none

/-- The custom `Deserialize` for `HomiePropertyDescription`
(`device_description/mod.rs` lines 89-132). -/
def propertyDescFromJson : Json → Option HomiePropertyDescription
  | .obj entries => do
    let name ← jsonOptStrField entries "name"
    let dtStr ← (jsonGetField entries "datatype").bind jsonAsStr
    let datatype ← homieDataTypeFromStr dtStr
    let fmtStr ← jsonOptStrField entries "format"
    let format ←
      match fmtStr with
      | some f => (HomiePropertyFormat.parse f datatype).toOption
      | none => some HomiePropertyFormat.Empty
    let settable ←
      match jsonGetField entries "settable" with
      | none => some false
      | some j => jsonAsBool j
    let retained ←
      match jsonGetField entries "retained" with
      | none => some true
      | some j => jsonAsBool j
    let unit ← jsonOptStrField entries "unit"
    some ⟨name, datatype, format, settable, retained, unit⟩
  | _ => none

/-- Deserialization of a map keyed by Homie IDs (a JSON object). -/
def idMapFromJson (f : Json → Option α) : Json → Option (List (HomieID × α))
  | .obj entries =>
    entries.mapM fun e => do
      let k ← if homieIDValid e.1 then some (⟨e.1⟩ : HomieID) else none
      let v ← f e.2
      some (k, v)
  | _ => none

/-- The derived `Deserialize` for `HomieNodeDescription`. -/
def nodeDescFromJson : Json → Option HomieNodeDescription
  | .obj entries => do
    let name ← jsonOptStrField entries "name"
    let ty ← jsonOptStrField entries "type"
    let properties ←
      match jsonGetField entries "properties" with
      | none => some []
      | some j => idMapFromJson propertyDescFromJson j
    some ⟨name, ty, properties⟩
  | _ => none

/-- The derived `Deserialize` for `HomieDeviceDescription`. -/
def deviceDescFromJson : Json → Option HomieDeviceDescription
  | .obj entries => do
    let name ← jsonOptStrField entries "name"
    let version ← (jsonGetField entries "version").bind jsonAsI64
    let homie ← (jsonGetField entries "homie").bind jsonAsStr
    let children ←
      match jsonGetField entries "children" with
      | none => some []
      | some (.arr items) => items.mapM homieIDFromJson
      | some _ => none
    let root ←
      match jsonGetField entries "root" with
      | none => some none
      | some .null => some none
      | some j => (homieIDFromJson j).map some
    let parent ←
      match jsonGetField entries "parent" with
      | none => some none
      | some .null => some none
      | some j => (homieIDFromJson j).map some
    let extensions ←
      match jsonGetField entries "extensions" with
      | none => some []
      | some (.arr items) => items.mapM jsonAsStr
      | some _ => none
    let nodes ←
      match jsonGetField entries "nodes" with
      | none => some []
      | some j => idMapFromJson nodeDescFromJson j
    some ⟨name, version, homie, children, root, parent, extensions, nodes⟩
  | _ => none

/-- `serde_json::from_str::<HomieDeviceDescription>` as used by the message
parser. -/
def deviceDescriptionFromStr (s : String) : Option HomieDeviceDescription :=
  (serdeJsonFromStr s).bind deviceDescFromJson

/-! ## `lib.rs`: device states and identifiers, `homie5_message.rs`: the parser -/

/-- The `HomieDeviceStatus` enum (`lib.rs` lines 179-191). -/
inductive HomieDeviceStatus where
  | Init
  | Ready
  | Disconnected
  | Sleeping
  | Lost
deriving DecidableEq, Repr

/-- `FromStr` for `HomieDeviceStatus` (`lib.rs` lines 222-235); the error
carries the offending string. -/
def homieDeviceStatusFromStr (s : String) : Option HomieDeviceStatus :=
  if s = "init" then some .Init
  else if s = "ready" then some .Ready
  else if s = "disconnected" then some .Disconnected
  else if s = "sleeping" then some .Sleeping
  else if s = "lost" then some .Lost
  else none

/-- The `DeviceIdentifier` struct (`lib.rs` lines 252-257). -/
structure DeviceIdentifier where
  topic_root : String
  id : String
deriving DecidableEq, Repr

/-- The `NodeIdentifier` struct (`lib.rs` lines 323-328). -/
structure NodeIdentifier where
  device : DeviceIdentifier
  id : String
deriving DecidableEq, Repr

/-- The `PropertyIdentifier` struct (`lib.rs` lines 411-416). -/
structure PropertyIdentifier where
  node : NodeIdentifier
  id : String
deriving DecidableEq, Repr

/-- `PropertyIdentifier::new` (`lib.rs` lines 420-425). -/
def PropertyIdentifier.new (topic_root device_id node_id prop_id : String) : PropertyIdentifier :=
  ⟨⟨⟨topic_root, device_id⟩, node_id⟩, prop_id⟩

/-- The `Homie5Message` enum (`homie5_message.rs` lines 8-49). -/
inductive Homie5Message where
  | DeviceState (device : DeviceIdentifier) (state : HomieDeviceStatus)
  | DeviceDescription (device : DeviceIdentifier) (description : HomieDeviceDescription)
  | DeviceLog (device : DeviceIdentifier) (log_msg : String)
  | DeviceAlert (device : DeviceIdentifier) (alert_id : String) (alert_msg : String)
  | PropertyValue (property : PropertyIdentifier) (value : String)
  | PropertyTarget (property : PropertyIdentifier) (target : String)
  | PropertySet (property : PropertyIdentifier) (set_value : String)
  | Broadcast (topic_root : String) (subtopic : String) (data : String)
  | DeviceRemoval (device : DeviceIdentifier)
deriving DecidableEq, Repr

/-- Token-list core of `parse_mqtt_message` (`homie5_message.rs` lines
51-168): the guard rejecting three or fewer tokens, the UTF-8 conversion
of the payload, the broadcast short-circuit on the third token, and the
dispatch on the total token count (4, 5 or 6).  The structural match on
the token list reproduces the positional indexing of the source
(`tokens[0]`, `tokens[2]`, `tokens[3..]` and the per-length accesses). -/
def parseMqttTokens (tokens : List String) (payload : List Nat) :
    Except Homie5ProtocolError Homie5Message :=
  if tokens.length ≤ 3 then .error .InvalidTopic
  else
    match tokens with
    | t0 :: _ :: t2 :: rest =>
      let topic_root := t0
      let device_id := t2
      match utf8Decode payload with
      | none => .error .PayloadConversionError
      | some payloadStr =>
        if device_id = "$broadcast" then
          .ok (.Broadcast topic_root (String.intercalate "/" rest) payloadStr)
        else
          match rest with
          | [attr] =>
            if attr = "$state" then
              if !payloadStr.isEmpty then
                match homieDeviceStatusFromStr payloadStr with
                | some state => .ok (.DeviceState ⟨topic_root, device_id⟩ state)
                | none => .error .InvalidPayload
              else
                .ok (.DeviceRemoval ⟨topic_root, device_id⟩)
            else if attr = "$description" then
              match deviceDescriptionFromStr payloadStr with
              | some description => .ok (.DeviceDescription ⟨topic_root, device_id⟩ description)
              | none => .error .InvalidPayload
            else if attr = "$log" then
              .ok (.DeviceLog ⟨topic_root, device_id⟩ payloadStr)
            else .error .InvalidTopic
          | [t3, t4] =>
            if t3 = "$alert" then
              .ok (.DeviceAlert ⟨topic_root, device_id⟩ t4 payloadStr)
            else
              .ok (.PropertyValue (PropertyIdentifier.new topic_root device_id t3 t4) payloadStr)
          | [t3, t4, attr] =>
            if attr = "set" then
              .ok (.PropertySet (PropertyIdentifier.new topic_root device_id t3 t4) payloadStr)
            else if attr = "$target" then
              .ok (.PropertyTarget (PropertyIdentifier.new topic_root device_id t3 t4) payloadStr)
            else .error .InvalidTopic
          | _ => .error .InvalidTopic
    | _ => .error .InvalidTopic

/-- `parse_mqtt_message` (`homie5_message.rs` lines 51-168): split the topic
on slashes and run the token dispatch. -/
def parse_mqtt_message (topic : String) (payload : List Nat) :
    Except Homie5ProtocolError Homie5Message :=
  parseMqttTokens (splitOnChar '/' topic) payload

/-! ## `homie_domain.rs` and `homie_ref/`: the reference types -/

/-- The `HomieDomain` enum (`homie_domain.rs`): the default domain, the
subscribe-only wildcard, or a validated custom segment. -/
inductive HomieDomain where
  | Default
  | All
  | Custom (domain : String)
deriving DecidableEq, Repr

/-- The `DeviceRef` struct (`homie_ref/device_ref.rs`). -/
structure DeviceRef where
  homie_domain : HomieDomain
  id : HomieID
deriving DecidableEq, Repr

/-- `DeviceRef::new`. -/
def DeviceRef.new (homie_domain : HomieDomain) (id : HomieID) : DeviceRef :=
  ⟨homie_domain, id⟩

/-- The `NodeRef` struct (`homie_ref/node_ref.rs`). -/
structure NodeRef where
  device : DeviceRef
  id : HomieID
deriving DecidableEq, Repr

/-- `NodeRef::new`. -/
def NodeRef.new (homie_domain : HomieDomain) (device_id node_id : HomieID) : NodeRef :=
  ⟨DeviceRef.new homie_domain device_id, node_id⟩

/-- The `PropertyPointer` struct (`homie_ref/property_pointer.rs`). -/
structure PropertyPointer where
  node_id : HomieID
  prop_id : HomieID
deriving DecidableEq, Repr

/-- The `PropertyRef` struct (`homie_ref/property_ref.rs`). -/
structure PropertyRef where
  device : DeviceRef
  prop_pointer : PropertyPointer
deriving DecidableEq, Repr

/-- `PropertyRef::new` (`homie_ref/property_ref.rs` lines 45-50). -/
def PropertyRef.new (homie_domain : HomieDomain) (device_id node_id prop_id : HomieID) :
    PropertyRef :=
  ⟨DeviceRef.new homie_domain device_id, ⟨node_id, prop_id⟩⟩

/-- The `PartialEq<DeviceRef>` implementation for `PropertyRef`
(`homie_ref/property_ref.rs` lines 125-139): only the device part is
compared; the symmetric `PartialEq<PropertyRef>` implementation on
`DeviceRef` delegates to the same comparison. -/
def propertyRefEqDeviceRef (p : PropertyRef) (d : DeviceRef) : Bool :=
  p.device = d

/-- The `PartialEq<NodeRef>` implementation for `PropertyRef`
(`homie_ref/property_ref.rs` lines 141-157): the device part and the node
id are compared. -/
def propertyRefEqNodeRef (p : PropertyRef) (n : NodeRef) : Bool :=
  p.device = n.device && p.prop_pointer.node_id = n.id

/-! ## `statemachine.rs` and `device_proto.rs`: the publish step sequence -/

/-- The `DevicePublishStep` enum (`device_proto.rs` lines 28-40);
`DeviceStateInit` carries the `#[default]` attribute. -/
inductive DevicePublishStep where
  | DeviceStateInit
  | DeviceDescription
  | PropertyValues
  | SubscribeProperties
  | DeviceStateReady
deriving DecidableEq, Repr

/-- The `Transition` implementation for `DevicePublishStep`
(`device_proto.rs` lines 42-52). -/
def DevicePublishStep.transition : DevicePublishStep → Option DevicePublishStep
  | .DeviceStateInit => some .DeviceDescription
  | .DeviceDescription => some .PropertyValues
  | .PropertyValues => some .SubscribeProperties
  | .SubscribeProperties => some .DeviceStateReady
  | .DeviceStateReady => none

/-- State of `HomieStateMachine` after `n` calls of `Iterator::next`
(`statemachine.rs`): the machine stores an `Option` state, each `next`
returns the current state and then replaces it by
`state.and_then(transition)`. -/
def smState (tr : α → Option α) : Option α → Nat → Option α
  | st, 0 => st
  | st, n + 1 => smState tr (st.bind tr) n

/-- The value yielded by the `n`-th `Iterator::next` call (0-based) on the
iterator returned by `homie_device_publish_steps` (`device_proto.rs` lines
59-61): the machine starts at `Default::default()`, which is
`DeviceStateInit`. -/
def homie_device_publish_steps (n : Nat) : Option DevicePublishStep :=
  smState DevicePublishStep.transition (some .DeviceStateInit) n

/-! ## `device_description/mod.rs`: deterministic version hashing

`HomieDeviceDescription::update_version` feeds the description through the
hand-written `Hash` implementations into `DefaultHasher` (SipHash-1-3 with
zero keys in the Rust standard library) and stores the 64-bit result
reinterpreted as an i64.  The byte stream written into the hasher is
modelled below following the standard library Hash protocol on a 64-bit
little-endian platform: strings hash as their UTF-8 bytes followed by a
0xFF terminator, `Option` and data-less enum discriminants as 8-byte
words, vectors with an 8-byte length before their elements, booleans as
one byte, and `i64`/`u64` as 8 little-endian two's-complement bytes.  The
hand-written implementations sort map keys and exclude the `version`
field, which is what the theorems below exercise. -/

/-- Little-endian byte list of the low `k` bytes of a natural number. -/
def leBytes : Nat → Nat → List Nat
  | 0, _ => []
  | k + 1, n => n % 256 :: leBytes k (n / 256)

/-- Eight little-endian bytes of a 64-bit word. -/
def u64Bytes (n : Nat) : List Nat := leBytes 8 n

/-- Eight little-endian bytes of an i64 in two's complement. -/
def i64Bytes (i : Int) : List Nat := u64Bytes (i % (2 ^ 64)).toNat

/-- Hash stream of a string (`impl Hash for str`): bytes then 0xFF. -/
def hashStr (s : String) : List Nat := utf8Encode s ++ [0xFF]

/-- Hash stream of an `Option<String>`: discriminant word then the payload. -/
def hashOptStr : Option String → List Nat
  | none => u64Bytes 0
  | some s => u64Bytes 1 ++ hashStr s

/-- Hash stream of an `Option<HomieID>` (the id hashes as its string). -/
def hashOptID : Option HomieID → List Nat
  | none => u64Bytes 0
  | some i => u64Bytes 1 ++ hashStr i.id

/-- Hash stream of an `Option<i64>`. -/
def hashOptI64 : Option Int → List Nat
  | none => u64Bytes 0
  | some v => u64Bytes 1 ++ i64Bytes v

/-- Hash stream of a `bool`. -/
def hashBool (b : Bool) : List Nat := [if b then 1 else 0]

/-- Hash stream of a vector: length word then the element streams. -/
def hashVec (f : α → List Nat) (xs : List α) : List Nat :=
  u64Bytes xs.length ++ xs.flatMap f

/-- Discriminant of `HomieDataType` in declaration order. -/
def dataTypeDisc : HomieDataType → Nat
  | .Integer => 0
  | .Float => 1
  | .Boolean => 2
  | .String => 3
  | .Enum => 4
  | .Color => 5
  | .Datetime => 6
  | .Duration => 7
  | .JSON => 8

/-- Discriminant of `ColorFormat` in declaration order. -/
def colorFormatDisc : ColorFormat → Nat
  | .Rgb => 0
  | .Hsv => 1
  | .Xyz => 2

/-- Custom `Hash` for `FloatRange` (`number_ranges.rs` lines 92-104): only
the present components are written, as the `to_bits` patterns of the
floats. -/
def floatRangeHashStream (r : FloatRange) : List Nat :=
  (match r.min with | some v => u64Bytes (f64ToBits v) | none => []) ++
  (match r.max with | some v => u64Bytes (f64ToBits v) | none => []) ++
  (match r.step with | some v => u64Bytes (f64ToBits v) | none => [])

/-- Derived `Hash` for `IntegerRange`: the three `Option<i64>` fields. -/
def integerRangeHashStream (r : IntegerRange) : List Nat :=
  hashOptI64 r.min ++ hashOptI64 r.max ++ hashOptI64 r.step

/-- Derived `Hash` for `HomiePropertyFormat`: discriminant word then the
variant payload. -/
def formatHashStream : HomiePropertyFormat → List Nat
  | .FloatRange r => u64Bytes 0 ++ floatRangeHashStream r
  | .IntegerRange r => u64Bytes 1 ++ integerRangeHashStream r
  | .Enum values => u64Bytes 2 ++ hashVec hashStr values
  | .Color formats => u64Bytes 3 ++ hashVec (fun c => u64Bytes (colorFormatDisc c)) formats
  | .Boolean bf => u64Bytes 4 ++ hashStr bf.false_val ++ hashStr bf.true_val
  | .Json data => u64Bytes 5 ++ hashStr data
  | .Custom data => u64Bytes 6 ++ hashStr data
  | .Empty => u64Bytes 7

/-- Derived `Hash` for `HomiePropertyDescription`: the fields in declaration
order. -/
def propertyDescHashStream (p : HomiePropertyDescription) : List Nat :=
  hashOptStr p.name ++ u64Bytes (dataTypeDisc p.datatype) ++ formatHashStream p.format ++
    hashBool p.settable ++ hashBool p.retained ++ hashOptStr p.unit

/-- First-match lookup in an association list (`HashMap::get` under the
distinct-keys invariant). -/
def lookupID (k : HomieID) (m : List (HomieID × α)) : Option α :=
  (m.find? (fun e => e.1 = k)).map Prod.snd

/-- Key order used when sorting map keys (`Ord` for `HomieID`, the byte
order of the underlying strings). -/
def idLe (a b : HomieID) : Prop := strLe a.id b.id = true

instance : DecidableRel idLe := fun a b => instDecidableEqBool (strLe a.id b.id) true

/-- Hash stream of a map hashed in sorted key order, as both hand-written
`Hash` implementations do: sort the keys, then write each key followed by
its value. -/
def mapEntriesHashStream (f : α → List Nat) (m : List (HomieID × α)) : List Nat :=
  (List.insertionSort idLe (m.map Prod.fst)).flatMap fun k =>
    hashStr k.id ++ (match lookupID k m with | some v => f v | none => [])

/-- Hand-written `Hash` for `HomieNodeDescription`
(`device_description/mod.rs` lines 184-197): name, type, then the
properties in sorted key order. -/
def nodeDescHashStream (n : HomieNodeDescription) : List Nat :=
  hashOptStr n.name ++ hashOptStr n.type ++
    mapEntriesHashStream propertyDescHashStream n.properties

/-- Hand-written `Hash` for `HomieDeviceDescription`
(`device_description/mod.rs` lines 364-381): name, homie, children, root,
parent, extensions, then the nodes in sorted key order; the `version`
field is not written. -/
def deviceDescHashStream (d : HomieDeviceDescription) : List Nat :=
  hashOptStr d.name ++ hashStr d.homie ++ hashVec (fun i => hashStr i.id) d.children ++
    hashOptID d.root ++ hashOptID d.parent ++ hashVec hashStr d.extensions ++
    mapEntriesHashStream nodeDescHashStream d.nodes

/-! ### SipHash-1-3 (`std::hash::DefaultHasher` with zero keys) -/

/-- Truncation to 64 bits. -/
def wrap64 (n : Nat) : Nat := n % 2 ^ 64

/-- Left rotation of a 64-bit word by `r` bits (0 < r < 64). -/
def rotl64 (x r : Nat) : Nat := x % 2 ^ (64 - r) * 2 ^ r + x / 2 ^ (64 - r)

/-- The four 64-bit state words of SipHash. -/
structure SipState where
  v0 : Nat
  v1 : Nat
  v2 : Nat
  v3 : Nat

/-- One SIPROUND. -/
def sipRound (s : SipState) : SipState :=
  let v0 := wrap64 (s.v0 + s.v1)
  let v1 := Nat.xor (rotl64 s.v1 13) v0
  let v0 := rotl64 v0 32
  let v2 := wrap64 (s.v2 + s.v3)
  let v3 := Nat.xor (rotl64 s.v3 16) v2
  let v0 := wrap64 (v0 + v3)
  let v3 := Nat.xor (rotl64 v3 21) v0
  let v2 := wrap64 (v2 + v1)
  let v1 := Nat.xor (rotl64 v1 17) v2
  let v2 := rotl64 v2 32
  ⟨v0, v1, v2, v3⟩

/-- Little-endian word value of at most eight bytes. -/
def bytesToWord (bs : List Nat) : Nat :=
  bs.foldr (fun b acc => acc * 256 + b) 0

/-- Compression of one 64-bit message word (one round for SipHash-1-3). -/
def sipCompress (s : SipState) (m : Nat) : SipState :=
  let s := { s with v3 := Nat.xor s.v3 m }
  let s := sipRound s
  { s with v0 := Nat.xor s.v0 m }

/-- Process all full 8-byte blocks, returning the state and the tail. -/
def sipBlocks (s : SipState) : List Nat → SipState × List Nat
  | b0 :: b1 :: b2 :: b3 :: b4 :: b5 :: b6 :: b7 :: rest =>
    sipBlocks (sipCompress s (bytesToWord [b0, b1, b2, b3, b4, b5, b6, b7])) rest
  | tail => (s, tail)

/-- SipHash-1-3 with both keys zero over a byte stream, as
`std::hash::DefaultHasher` computes it: the initial constants, one
compression round per 8-byte little-endian word, and a finalization block
carrying the low length byte in the top byte followed by three rounds. -/
def sipHash13 (bytes : List Nat) : Nat :=
  let s0 : SipState :=
    ⟨0x736f6d6570736575, 0x646f72616e646f6d, 0x6c7967656e657261, 0x7465646279746573⟩
  let (s1, tail) := sipBlocks s0 bytes
  let b := wrap64 (bytes.length % 256 * 2 ^ 56 + bytesToWord tail)
  let s2 := sipCompress s1 b
  let s3 := { s2 with v2 := Nat.xor s2.v2 0xFF }
  let s4 := sipRound (sipRound (sipRound s3))
  Nat.xor (Nat.xor s4.v0 s4.v1) (Nat.xor s4.v2 s4.v3)

/-- Reinterpretation of the 64-bit hash as an i64
(`i64::from_ne_bytes(hash.to_ne_bytes())`). -/
def u64AsI64 (n : Nat) : Int :=
  if n < 2 ^ 63 then (n : Int) else (n : Int) - 2 ^ 64

/-- `HomieDeviceDescription::update_version` (`device_description/mod.rs`
lines 340-345): hash the description with the default hasher and store the
result as the version. -/
def update_version (d : HomieDeviceDescription) : HomieDeviceDescription :=
  { d with version := u64AsI64 (sipHash13 (deviceDescHashStream d)) }

/-! ## Statement-side definitions for the claims -/

/-- Structural equality of node descriptions up to the insertion order of
their property map: equal plain fields and the same property entries as a
multiset, the key sets being duplicate-free (the `HashMap` invariant). -/
def nodeEquivB (n1 n2 : HomieNodeDescription) : Bool :=
  n1.name == n2.name && n1.type == n2.type &&
    decide (n1.properties.map Prod.fst).Nodup &&
    decide (n2.properties.map Prod.fst).Nodup &&
    @List.isPerm _ instBEqOfDecidableEq n1.properties n2.properties

/-- Pointwise node comparison through the map lookups. -/
def lookupEquivB (k : HomieID) (m1 m2 : List (HomieID × HomieNodeDescription)) : Bool :=
  match lookupID k m1, lookupID k m2 with
  | some n1, some n2 => nodeEquivB n1 n2
  | _, _ => false

/-- Structural equality of device descriptions up to the insertion order of
their node and property maps: equal plain fields (the `version` field is
deliberately not compared), duplicate-free key sets, the same node key
multiset, and structurally equal node descriptions at every key. -/
def structEquivB (d1 d2 : HomieDeviceDescription) : Bool :=
  d1.name == d2.name && d1.homie == d2.homie && d1.children == d2.children &&
    d1.root == d2.root && d1.parent == d2.parent && d1.extensions == d2.extensions &&
    decide (d1.nodes.map Prod.fst).Nodup && decide (d2.nodes.map Prod.fst).Nodup &&
    @List.isPerm _ instBEqOfDecidableEq (d1.nodes.map Prod.fst) (d2.nodes.map Prod.fst) &&
    (d1.nodes.map Prod.fst).all (fun k => lookupEquivB k d1.nodes d2.nodes)

mutual

/-- `PartialEq` for `serde_json::Value`, structurally on the JSON tree; the
object maps (ordered `BTreeMap`s in serde) are modelled as their entry
sequences, so object equality is sequence equality of the association
lists. -/
def jsonEqB : Json → Json → Bool
  | .null, .null => true
  | .bool a, .bool b => a = b
  | .num a, .num b => a = b
  | .str a, .str b => a = b
  | .arr a, .arr b => jsonArrEqB a b
  | .obj a, .obj b => jsonObjEqB a b
  | _, _ => false

/-- Elementwise `jsonEqB` on JSON arrays of equal length. -/
def jsonArrEqB : List Json → List Json → Bool
  | [], [] => true
  | x :: xs, y :: ys => jsonEqB x y && jsonArrEqB xs ys
  | _, _ => false

/-- Entrywise `jsonEqB` on JSON object entry lists of equal length. -/
def jsonObjEqB : List (String × Json) → List (String × Json) → Bool
  | [], [] => true
  | (k1, v1) :: xs, (k2, v2) :: ys => k1 = k2 && jsonEqB v1 v2 && jsonObjEqB xs ys
  | _, _ => false

end

/-- The quantization formula exactly as the specification states it (exact
integer rounding, no `f64`): `rounded = round((value - base) / step) * step
+ base` with `base = min.or(max).unwrap_or(value)`.  This is a
specification-side definition written from the claim's words, for
comparison with the program's `HomieValue.validate_int`; the C2
counterexample separates the two. -/
def specQuantizeInt (value : Int) (range : IntegerRange) : Int :=
  let base := ((range.min.or range.max).getD value)
  match range.step with
  | some s => if 0 < s then roundAway (value - base) s * s + base else value
  | none => value

/-- An exhausted state machine stays exhausted. -/
theorem smState_none (tr : α → Option α) : ∀ n, smState tr none n = none
  | 0 => rfl
  | n + 1 => smState_none tr n

/-! ## Claim C3 -/

/-- Claim C3: on the topic homie/5/dev1/$state, an empty payload parses to
`DeviceRemoval` for device dev1, the payload ready parses to
`DeviceState` with state `Ready`, and the payload bogus (not a device
state name) yields `InvalidPayload`. -/
theorem claim_C3 :
    parse_mqtt_message "homie/5/dev1/$state" [] =
      .ok (.DeviceRemoval ⟨"homie", "dev1"⟩) ∧
    parse_mqtt_message "homie/5/dev1/$state" (utf8Encode "ready") =
      .ok (.DeviceState ⟨"homie", "dev1"⟩ .Ready) ∧
    parse_mqtt_message "homie/5/dev1/$state" (utf8Encode "bogus") =
      .error .InvalidPayload :=
  ⟨rfl, rfl, rfl⟩

/-! ## Claim C1 -/

/-- Claim C1 counterexample: the topic homie/4/dev1/$state has four tokens
whose second token is 4, not the protocol version 5, yet
`parse_mqtt_message` accepts it: the version token is never checked. -/
theorem claim_C1_counterexample :
    splitOnChar '/' "homie/4/dev1/$state" = ["homie", "4", "dev1", "$state"] ∧
    parse_mqtt_message "homie/4/dev1/$state" (utf8Encode "ready") =
      .ok (.DeviceState ⟨"homie", "dev1"⟩ .Ready) :=
  ⟨rfl, rfl⟩

/-- Claim C1 (amended): every topic whose token list has three or fewer
tokens yields `InvalidTopic`, and the parser never validates the second
token: its result is unchanged under an arbitrary replacement of that
token. -/
theorem claim_C1 :
    (∀ (topic : String) (payload : List Nat),
        (splitOnChar '/' topic).length ≤ 3 →
        parse_mqtt_message topic payload = .error .InvalidTopic) ∧
    (∀ (t0 t1 t1' : String) (rest : List String) (payload : List Nat),
        parseMqttTokens (t0 :: t1 :: rest) payload =
          parseMqttTokens (t0 :: t1' :: rest) payload) := by
  constructor
  · intro topic payload h
    unfold parse_mqtt_message parseMqttTokens
    simp [h]
  · intro t0 t1 t1' rest payload
    cases rest with
    | nil => rfl
    | cons t2 rest2 =>
      cases rest2 with
      | nil => rfl
      | cons t3 rest3 => rfl

/-- Claim C1 witness: a two-token topic is rejected as `InvalidTopic`. -/
theorem claim_C1_witness :
    parse_mqtt_message "homie/5" [] = .error .InvalidTopic :=
  claim_C1.1 "homie/5" [] (by decide)

/-! ## Claim C6 -/

/-- Claim C6 counterexample: with the node id changed from n1 to n2, the
property-to-device comparison is still true, because only the device part
is compared; the claim that changing any one segment falsifies the
comparison fails for the node and property segments. -/
theorem claim_C6_counterexample :
    propertyRefEqDeviceRef (PropertyRef.new .Default ⟨"d1"⟩ ⟨"n1"⟩ ⟨"p1"⟩)
        (DeviceRef.new .Default ⟨"d1"⟩) = true ∧
    propertyRefEqDeviceRef (PropertyRef.new .Default ⟨"d1"⟩ ⟨"n2"⟩ ⟨"p1"⟩)
        (DeviceRef.new .Default ⟨"d1"⟩) = true := by
  decide

/-- Claim C6 (amended): a `PropertyRef` equals a `DeviceRef` exactly when its
device part matches, and equals a `NodeRef` exactly when the device part
and the node id match; concretely, the comparison of the spec example is
true, changing the domain or the device id falsifies it, and changing the
node or property id leaves it true. -/
theorem claim_C6 :
    (∀ (p : PropertyRef) (d : DeviceRef),
        propertyRefEqDeviceRef p d = true ↔ p.device = d) ∧
    (∀ (p : PropertyRef) (n : NodeRef),
        propertyRefEqNodeRef p n = true ↔
          p.device = n.device ∧ p.prop_pointer.node_id = n.id) ∧
    propertyRefEqDeviceRef (PropertyRef.new .Default ⟨"d1"⟩ ⟨"n1"⟩ ⟨"p1"⟩)
        (DeviceRef.new .Default ⟨"d1"⟩) = true ∧
    propertyRefEqDeviceRef (PropertyRef.new (.Custom "other") ⟨"d1"⟩ ⟨"n1"⟩ ⟨"p1"⟩)
        (DeviceRef.new .Default ⟨"d1"⟩) = false ∧
    propertyRefEqDeviceRef (PropertyRef.new .Default ⟨"d2"⟩ ⟨"n1"⟩ ⟨"p1"⟩)
        (DeviceRef.new .Default ⟨"d1"⟩) = false ∧
    propertyRefEqDeviceRef (PropertyRef.new .Default ⟨"d1"⟩ ⟨"n2"⟩ ⟨"p1"⟩)
        (DeviceRef.new .Default ⟨"d1"⟩) = true ∧
    propertyRefEqDeviceRef (PropertyRef.new .Default ⟨"d1"⟩ ⟨"n1"⟩ ⟨"p2"⟩)
        (DeviceRef.new .Default ⟨"d1"⟩) = true := by
  refine ⟨?_, ?_, by decide, by decide, by decide, by decide, by decide⟩
  · intro p d
    simp [propertyRefEqDeviceRef]
  · intro p n
    simp [propertyRefEqNodeRef]

/-! ## Claim C8 -/

/-- Claim C8: the publish-steps iterator yields exactly the five steps
state-init, description, property-values, subscribe-properties,
state-ready in this order, one per `next` call, and every later call
yields nothing. -/
theorem claim_C8 :
    homie_device_publish_steps 0 = some .DeviceStateInit ∧
    homie_device_publish_steps 1 = some .DeviceDescription ∧
    homie_device_publish_steps 2 = some .PropertyValues ∧
    homie_device_publish_steps 3 = some .SubscribeProperties ∧
    homie_device_publish_steps 4 = some .DeviceStateReady ∧
    ∀ n, 5 ≤ n → homie_device_publish_steps n = none := by
  refine ⟨rfl, rfl, rfl, rfl, rfl, ?_⟩
  intro n h
  obtain ⟨m, rfl⟩ := Nat.exists_eq_add_of_le h
  have h5 : homie_device_publish_steps (5 + m) =
      smState DevicePublishStep.transition none m := by
    rw [Nat.add_comm]
    rfl
  rw [h5]
  exact smState_none _ m

/-- Claim C8 witness: the eighth call yields nothing. -/
theorem claim_C8_witness : homie_device_publish_steps 7 = none :=
  claim_C8.2.2.2.2.2 7 (by decide)

/-! ## Claim C2 -/

set_option maxRecDepth 100000 in
set_option exponentiation.threshold 2000 in
/-- Claim C2 counterexample: at value `2 ^ 62 + 1` against the integer range
`0::3`, the program quantizes through `f64` and accepts
`4611686018427387648`, while the exact rounding formula of the claim
demands `4611686018427387906`: the conversion of `2 ^ 62 + 1` to `f64`
already loses the low bits, so the claim's universal rounding clause is
false of the program. -/
theorem claim_C2_counterexample :
    homieValueParse "4611686018427387905"
        ⟨none, .Integer, .IntegerRange ⟨some 0, none, some 3⟩, false, true, none⟩ =
      .ok (.Integer 4611686018427387648) ∧
    specQuantizeInt 4611686018427387905 ⟨some 0, none, some 3⟩ = 4611686018427387906 ∧
    (4611686018427387648 : Int) ≠ 4611686018427387906 :=
  ⟨rfl, rfl, by decide⟩

theorem ok_bounds_of_check {range : IntegerRange} {R value result : Int}
    (h : (if (range.min.all fun m => decide (m ≤ R)) &&
            (range.max.all fun m => decide (R ≤ m)) then
          Except.ok R
        else Except.error (Homie5ValueConversionError.IntegerOutOfRange value range)) =
        Except.ok result) :
    (∀ m, range.min = some m → m ≤ result) ∧
    (∀ m, range.max = some m → result ≤ m) := by
  split at h
  next hb =>
    injection h with h1
    subst h1
    rw [Bool.and_eq_true] at hb
    obtain ⟨hb1, hb2⟩ := hb
    constructor
    · intro m hm
      rw [hm] at hb1
      exact of_decide_eq_true hb1
    · intro m hm
      rw [hm] at hb2
      exact of_decide_eq_true hb2
  next => exact Except.noConfusion h

set_option maxRecDepth 100000 in
/-- Claim C2 (amended): against an integer range with min 5, max 15 and step
3, the input 7 quantizes to 8, the input 15 quantizes down to 14, and the
inputs 16 and 3 quantize outside the bounds and fail with
`IntegerOutOfRange`; in general every value `validate_int` accepts lies
within the present bounds.  The claim's exact rounding formula
round((value - base) / step) * step + base describes the quantization only
as far as the `f64` arithmetic it runs through is exact (see the
counterexample). -/
theorem claim_C2 :
    homieValueParse "7" ⟨none, .Integer, .IntegerRange ⟨some 5, some 15, some 3⟩, false, true, none⟩ =
      .ok (.Integer 8) ∧
    homieValueParse "15" ⟨none, .Integer, .IntegerRange ⟨some 5, some 15, some 3⟩, false, true, none⟩ =
      .ok (.Integer 14) ∧
    homieValueParse "16" ⟨none, .Integer, .IntegerRange ⟨some 5, some 15, some 3⟩, false, true, none⟩ =
      .error (.InvalidHomieValue (.IntegerOutOfRange 16 ⟨some 5, some 15, some 3⟩)) ∧
    homieValueParse "3" ⟨none, .Integer, .IntegerRange ⟨some 5, some 15, some 3⟩, false, true, none⟩ =
      .error (.InvalidHomieValue (.IntegerOutOfRange 3 ⟨some 5, some 15, some 3⟩)) ∧
    ∀ (desc : HomiePropertyDescription) (range : IntegerRange) (value result : Int),
      desc.format = .IntegerRange range →
      HomieValue.validate_int value desc = .ok result →
      (∀ m, range.min = some m → m ≤ result) ∧
      (∀ m, range.max = some m → result ≤ m) := by
  refine ⟨rfl, rfl, rfl, rfl, ?_⟩
  intro desc range value result hfmt h
  unfold HomieValue.validate_int at h
  simp only [hfmt] at h
  exact ok_bounds_of_check h

set_option maxRecDepth 100000 in
/-- Claim C2 witness: the bounds clause applied at the concrete acceptance
of the input 7 as the quantized value 8 against the 5:15:3 range. -/
theorem claim_C2_witness : (5 : Int) ≤ 8 ∧ (8 : Int) ≤ 15 :=
  ⟨(claim_C2.2.2.2.2 ⟨none, .Integer, .IntegerRange ⟨some 5, some 15, some 3⟩, false, true, none⟩
      ⟨some 5, some 15, some 3⟩ 7 8 rfl rfl).1 5 rfl,
   (claim_C2.2.2.2.2 ⟨none, .Integer, .IntegerRange ⟨some 5, some 15, some 3⟩, false, true, none⟩
      ⟨some 5, some 15, some 3⟩ 7 8 rfl rfl).2 15 rfl⟩

/-! ## Claim C7 -/

/-- Claim C7 counterexample: the single zero byte decodes to a one-character
string holding U+0000, not to an empty string value: the parser does not
invert the empty-string wire encoding (the remapping is commented out in
the source). -/
theorem claim_C7_counterexample :
    parse_mqtt_message "homie/5/dev1/n1/p1" [0] =
      .ok (.PropertyValue (PropertyIdentifier.new "homie" "dev1" "n1" "p1")
        (String.mk [Char.ofNat 0])) ∧
    String.mk [Char.ofNat 0] ≠ "" := by
  exact ⟨rfl, by decide⟩

/-- Claim C7 (amended): the device core encodes an empty string value as the
single zero byte and a non-empty string as its UTF-8 bytes, but on
receipt that byte is not decoded back to an empty value: it becomes the
one-character U+0000 string, which string-typed value parsing accepts
verbatim. -/
theorem claim_C7 :
    homie_str_to_vecu8 "" = [0] ∧
    (∀ s : String, s.isEmpty = false → homie_str_to_vecu8 s = utf8Encode s) ∧
    homieValueParse (String.mk [Char.ofNat 0]) ⟨none, .String, .Empty, false, true, none⟩ =
      .ok (.String (String.mk [Char.ofNat 0])) := by
  refine ⟨rfl, ?_, rfl⟩
  intro s h
  simp [homie_str_to_vecu8, h]

/-- Claim C7 witness: a concrete non-empty string is encoded as its UTF-8
bytes. -/
theorem claim_C7_witness : homie_str_to_vecu8 "x" = utf8Encode "x" :=
  claim_C7.2.1 "x" rfl

/-! ## Claim C9 -/

/-- Claim C9: for a property description with datatype color but format
`Empty`, parsing accepts every well-formed color string, yet `validate`
rejects every color value against the same description, because it
requires the format to be the color variant. -/
theorem claim_C9 :
    ∀ (name unit : Option String) (settable retained : Bool) (raw : String)
      (c : HomieColorValue),
      (homieColorValueFromStr raw = .ok c →
        homieValueParse raw ⟨name, .Color, .Empty, settable, retained, unit⟩ =
          .ok (.Color c)) ∧
      ∀ cv : HomieColorValue,
        homieValueValidate (.Color cv) ⟨name, .Color, .Empty, settable, retained, unit⟩ =
          false := by
  intro name unit settable retained raw c
  constructor
  · intro h
    simp [homieValueParse, h, HomiePropertyFormat.is_empty, Except.mapError]
  · intro cv
    rfl

/-- Claim C9 witness: the rgb string 1,2,3 is accepted by parsing against the
empty format, and the resulting value fails validation against the same
description. -/
theorem claim_C9_witness :
    homieValueParse "rgb,1,2,3" ⟨none, .Color, .Empty, false, true, none⟩ =
      .ok (.Color (.RGB 1 2 3)) ∧
    homieValueValidate (.Color (.RGB 1 2 3)) ⟨none, .Color, .Empty, false, true, none⟩ =
      false :=
  ⟨(claim_C9 none none false true "rgb,1,2,3" (.RGB 1 2 3)).1 rfl,
   (claim_C9 none none false true "rgb,1,2,3" (.RGB 1 2 3)).2 (.RGB 1 2 3)⟩

/-! ## Claim C10 -/

/-- Claim C10: color parsing ignores extra trailing comma-separated tokens:
whenever the token list begins with the rgb tag and three integer tokens
(or hsv with three integers, or xyz with two floats, z computed as
1 - x - y), parsing succeeds with those components whatever follows; and
every failure is `InvalidColorFormat` carrying the whole input, arising
only from a missing or unparseable required component or an unknown
leading tag. -/
theorem claim_C10 :
    ∀ s : String,
      (∀ (a1 a2 a3 : String) (rest : List String) (r g b : Int),
          splitOnChar ',' s = "rgb" :: a1 :: a2 :: a3 :: rest →
          parseI64 a1 = some r → parseI64 a2 = some g → parseI64 a3 = some b →
          homieColorValueFromStr s = .ok (.RGB r g b)) ∧
      (∀ (a1 a2 a3 : String) (rest : List String) (h sa v : Int),
          splitOnChar ',' s = "hsv" :: a1 :: a2 :: a3 :: rest →
          parseI64 a1 = some h → parseI64 a2 = some sa → parseI64 a3 = some v →
          homieColorValueFromStr s = .ok (.HSV h sa v)) ∧
      (∀ (a1 a2 : String) (rest : List String) (x y : Rat),
          splitOnChar ',' s = "xyz" :: a1 :: a2 :: rest →
          parseF64 a1 = some x → parseF64 a2 = some y →
          homieColorValueFromStr s = .ok (.XYZ x y (1 - x - y))) ∧
      (∀ e, homieColorValueFromStr s = .error e → e = .InvalidColorFormat s) := by
  intro s
  refine ⟨?_, ?_, ?_, ?_⟩
  · intro a1 a2 a3 rest r g b hs h1 h2 h3
    simp [homieColorValueFromStr, hs, h1, h2, h3]
  · intro a1 a2 a3 rest h sa v hs h1 h2 h3
    simp [homieColorValueFromStr, hs, h1, h2, h3]
  · intro a1 a2 rest x y hs h1 h2
    simp [homieColorValueFromStr, hs, h1, h2]
  · intro e h
    unfold homieColorValueFromStr at h
    repeat' split at h
    all_goals simp_all

/-- Claim C10 witness: rgb with a trailing junk token parses to the three
integer components, and an unknown tag fails with the whole input in the
error. -/
theorem claim_C10_witness :
    homieColorValueFromStr "rgb,1,2,3,junk" = .ok (.RGB 1 2 3) ∧
    Homie5ValueConversionError.InvalidColorFormat "nope,1" =
      .InvalidColorFormat "nope,1" :=
  ⟨(claim_C10 "rgb,1,2,3,junk").1 "1" "2" "3" ["junk"] 1 2 3 rfl rfl rfl rfl,
   (claim_C10 "nope,1").2.2.2 (.InvalidColorFormat "nope,1") rfl⟩

/-! ## Order lemmas for the key sort -/

/-- Transitivity of the byte-lexicographic order. -/
theorem charListLe_trans : ∀ (a b c : List Char),
    charListLe a b = true → charListLe b c = true → charListLe a c = true
  | [], _, _, _, _ => rfl
  | _ :: _, [], _, h, _ => by simp [charListLe] at h
  | _ :: _, _ :: _, [], _, h => by simp [charListLe] at h
  | x :: xs, y :: ys, z :: zs, h1, h2 => by
    simp only [charListLe] at h1 h2 ⊢
    split at h1
    · split at h2
      · simp [show x.toNat < z.toNat by omega]
      · split at h2
        · exact absurd h2 (by simp)
        · simp [show x.toNat < z.toNat by omega]
    · split at h1
      · exact absurd h1 (by simp)
      · split at h2
        · simp [show x.toNat < z.toNat by omega]
        · split at h2
          · exact absurd h2 (by simp)
          · have hxz : ¬ x.toNat < z.toNat := by omega
            have hzx : ¬ z.toNat < x.toNat := by omega
            simp only [if_neg hxz, if_neg hzx]
            exact charListLe_trans xs ys zs h1 h2

/-- Totality of the byte-lexicographic order. -/
theorem charListLe_total : ∀ (a b : List Char),
    charListLe a b = true ∨ charListLe b a = true
  | [], _ => Or.inl rfl
  | _ :: _, [] => Or.inr rfl
  | x :: xs, y :: ys => by
    simp only [charListLe]
    rcases Nat.lt_trichotomy x.toNat y.toNat with h | h | h
    · left; simp [h]
    · have h1 : ¬ x.toNat < y.toNat := by omega
      have h2 : ¬ y.toNat < x.toNat := by omega
      simp only [if_neg h1, if_neg h2]
      exact charListLe_total xs ys
    · right; simp [h]

/-- Antisymmetry of the byte-lexicographic order. -/
theorem charListLe_antisymm : ∀ (a b : List Char),
    charListLe a b = true → charListLe b a = true → a = b
  | [], [], _, _ => rfl
  | [], _ :: _, _, h => by simp [charListLe] at h
  | _ :: _, [], h, _ => by simp [charListLe] at h
  | x :: xs, y :: ys, h1, h2 => by
    simp only [charListLe] at h1 h2
    rcases Nat.lt_trichotomy x.toNat y.toNat with h | h | h
    · rw [if_neg (by omega), if_pos h] at h2
      exact absurd h2 (by simp)
    · have hq : x = y := Char.eq_of_val_eq (UInt32.toNat.inj h)
      rw [if_neg (by omega), if_neg (by omega)] at h1
      rw [if_neg (by omega), if_neg (by omega)] at h2
      rw [hq, charListLe_antisymm xs ys h1 h2]
    · rw [if_neg (by omega), if_pos h] at h1
      exact absurd h1 (by simp)

instance : IsTrans HomieID idLe :=
  ⟨fun _ _ _ h1 h2 => charListLe_trans _ _ _ h1 h2⟩

instance : IsTotal HomieID idLe :=
  ⟨fun a b => charListLe_total a.id.data b.id.data⟩

instance : IsAntisymm HomieID idLe := by
  refine ⟨fun a b h1 h2 => ?_⟩
  obtain ⟨⟨da⟩⟩ := a
  obtain ⟨⟨db⟩⟩ := b
  have := charListLe_antisymm da db h1 h2
  simp_all

/-- Sorting is invariant under permutation of the input. -/
theorem insertionSort_eq_of_perm {l1 l2 : List HomieID} (h : l1.Perm l2) :
    List.insertionSort idLe l1 = List.insertionSort idLe l2 :=
  List.eq_of_perm_of_sorted
    ((List.perm_insertionSort idLe l1).trans (h.trans (List.perm_insertionSort idLe l2).symm))
    (List.sorted_insertionSort idLe l1) (List.sorted_insertionSort idLe l2)

/-! ## Lookup lemmas -/

/-- With duplicate-free keys, lookups agree across a permutation of the
entries. -/
theorem lookupID_eq_of_perm {m1 m2 : List (HomieID × α)} (h : m1.Perm m2)
    (hnd : (m1.map Prod.fst).Nodup) (k : HomieID) :
    lookupID k m1 = lookupID k m2 := by
  induction h with
  | nil => rfl
  | cons x _ ih =>
    simp only [lookupID, List.find?]
    cases hx : (x.1 = k : Bool)
    · simp only [List.map, List.nodup_cons] at hnd
      exact ih hnd.2
    · rfl
  | swap x y l =>
    have hxy : y.1 ≠ x.1 := by
      simp only [List.map, List.nodup_cons, List.mem_cons, not_or] at hnd
      exact hnd.1.1
    simp only [lookupID, List.find?]
    cases hx : (x.1 = k : Bool) <;> cases hy : (y.1 = k : Bool) <;> simp_all
  | trans p1 _ ih1 ih2 =>
    have hnd2 := (p1.map Prod.fst).nodup_iff.mp hnd
    exact (ih1 hnd).trans (ih2 hnd2)

/-- A key occurring among the entry keys has a successful lookup. -/
theorem lookupID_isSome_of_mem {m : List (HomieID × α)} {k : HomieID}
    (h : k ∈ m.map Prod.fst) : ∃ v, lookupID k m = some v := by
  induction m with
  | nil => simp at h
  | cons e es ih =>
    simp only [List.map, List.mem_cons] at h
    by_cases hk : e.1 = k
    · exact ⟨e.2, by simp [lookupID, List.find?, hk]⟩
    · have hmem : k ∈ es.map Prod.fst := by
        rcases h with h | h
        · exact absurd h.symm hk
        · exact h
      obtain ⟨v, hv⟩ := ih hmem
      exact ⟨v, by simpa [lookupID, List.find?, hk] using hv⟩

/-- Pointwise congruence for flat maps. -/
theorem flatMap_congr {l : List α} {F G : α → List β} (h : ∀ x ∈ l, F x = G x) :
    l.flatMap F = l.flatMap G := by
  induction l with
  | nil => rfl
  | cons x xs ih =>
    simp only [List.flatMap_cons]
    rw [h x (List.mem_cons_self x xs), ih (fun y hy => h y (List.mem_cons_of_mem x hy))]

/-- Congruence of the sorted-key map hash stream: equal key multisets and
value streams that agree through the lookups give equal streams. -/
theorem mapEntriesHashStream_congr {f : α → List Nat} {m1 m2 : List (HomieID × α)}
    (hkeys : (m1.map Prod.fst).Perm (m2.map Prod.fst))
    (hlook : ∀ k, k ∈ m1.map Prod.fst →
      ∃ v1 v2, lookupID k m1 = some v1 ∧ lookupID k m2 = some v2 ∧ f v1 = f v2) :
    mapEntriesHashStream f m1 = mapEntriesHashStream f m2 := by
  unfold mapEntriesHashStream
  rw [insertionSort_eq_of_perm hkeys]
  apply flatMap_congr
  intro k hk
  have hk2 : k ∈ m2.map Prod.fst := (List.perm_insertionSort idLe _).mem_iff.mp hk
  have hk1 : k ∈ m1.map Prod.fst := hkeys.mem_iff.mpr hk2
  obtain ⟨v1, v2, h1, h2, hf⟩ := hlook k hk1
  rw [h1, h2]
  simpa using hf

/-- Congruence of the node hash stream under structural node equality. -/
theorem nodeDescHashStream_congr {n1 n2 : HomieNodeDescription}
    (h : nodeEquivB n1 n2 = true) : nodeDescHashStream n1 = nodeDescHashStream n2 := by
  simp only [nodeEquivB, Bool.and_eq_true, beq_iff_eq, decide_eq_true_iff] at h
  obtain ⟨⟨⟨⟨hname, htype⟩, hnd1⟩, _⟩, hperm0⟩ := h
  have hperm : n1.properties.Perm n2.properties := List.isPerm_iff.mp hperm0
  unfold nodeDescHashStream
  rw [hname, htype]
  congr 1
  apply mapEntriesHashStream_congr (hperm.map Prod.fst)
  intro k hk
  obtain ⟨v1, hv1⟩ := lookupID_isSome_of_mem hk
  have hlook := lookupID_eq_of_perm hperm hnd1 k
  exact ⟨v1, v1, hv1, by rw [← hlook]; exact hv1, rfl⟩

/-- Congruence of the device hash stream under structural equality. -/
theorem deviceDescHashStream_congr {d1 d2 : HomieDeviceDescription}
    (h : structEquivB d1 d2 = true) :
    deviceDescHashStream d1 = deviceDescHashStream d2 := by
  simp only [structEquivB, Bool.and_eq_true, beq_iff_eq, decide_eq_true_iff,
    List.all_eq_true] at h
  obtain ⟨⟨⟨⟨⟨⟨⟨⟨⟨hname, hhomie⟩, hchildren⟩, hroot⟩, hparent⟩, hext⟩, _⟩, _⟩,
    hperm0⟩, hlook⟩ := h
  have hperm : (d1.nodes.map Prod.fst).Perm (d2.nodes.map Prod.fst) :=
    List.isPerm_iff.mp hperm0
  unfold deviceDescHashStream
  rw [hname, hhomie, hchildren, hroot, hparent, hext]
  congr 1
  apply mapEntriesHashStream_congr hperm
  intro k hk
  have := hlook k hk
  unfold lookupEquivB at this
  obtain ⟨v1, hv1⟩ := lookupID_isSome_of_mem hk
  rw [hv1] at this
  cases hv2 : lookupID k d2.nodes with
  | none => rw [hv2] at this; exact absurd this (by simp)
  | some v2 =>
    rw [hv2] at this
    exact ⟨v1, v2, hv1, rfl, nodeDescHashStream_congr this⟩

/-! ## Claim C5 -/

set_option maxRecDepth 100000 in
/-- Claim C5: structurally identical device descriptions (same plain fields
and the same node and property maps, whatever the insertion order) receive
identical versions from `update_version`, because the hash sorts the map
keys and excludes the `version` field; and changing one property's unit
yields a different version. -/
theorem claim_C5 :
    (∀ d1 d2 : HomieDeviceDescription, structEquivB d1 d2 = true →
        (update_version d1).version = (update_version d2).version) ∧
    (update_version ⟨none, 0, "5.0", [], none, none, [],
        [(⟨"n"⟩, ⟨none, none, [(⟨"a"⟩, ⟨none, .Integer, .Empty, false, true, none⟩),
          (⟨"b"⟩, ⟨none, .String, .Empty, false, true, some "W"⟩)]⟩)]⟩).version ≠
      (update_version ⟨none, 0, "5.0", [], none, none, [],
        [(⟨"n"⟩, ⟨none, none, [(⟨"a"⟩, ⟨none, .Integer, .Empty, false, true, none⟩),
          (⟨"b"⟩, ⟨none, .String, .Empty, false, true, none⟩)]⟩)]⟩).version := by
  constructor
  · intro d1 d2 h
    show u64AsI64 (sipHash13 (deviceDescHashStream d1)) =
      u64AsI64 (sipHash13 (deviceDescHashStream d2))
    rw [deviceDescHashStream_congr h]
  · decide

set_option maxRecDepth 100000 in
/-- Claim C5 witness: a concrete pair of descriptions that differ only in
the insertion order of the two properties is structurally equivalent and
receives the same version. -/
theorem claim_C5_witness :
    structEquivB
        ⟨none, 0, "5.0", [], none, none, [],
          [(⟨"n"⟩, ⟨none, none, [(⟨"a"⟩, ⟨none, .Integer, .Empty, false, true, none⟩),
            (⟨"b"⟩, ⟨none, .String, .Empty, false, true, some "W"⟩)]⟩)]⟩
        ⟨none, 0, "5.0", [], none, none, [],
          [(⟨"n"⟩, ⟨none, none, [(⟨"b"⟩, ⟨none, .String, .Empty, false, true, some "W"⟩),
            (⟨"a"⟩, ⟨none, .Integer, .Empty, false, true, none⟩)]⟩)]⟩ = true ∧
    (update_version ⟨none, 0, "5.0", [], none, none, [],
        [(⟨"n"⟩, ⟨none, none, [(⟨"a"⟩, ⟨none, .Integer, .Empty, false, true, none⟩),
          (⟨"b"⟩, ⟨none, .String, .Empty, false, true, some "W"⟩)]⟩)]⟩).version =
      (update_version ⟨none, 0, "5.0", [], none, none, [],
        [(⟨"n"⟩, ⟨none, none, [(⟨"b"⟩, ⟨none, .String, .Empty, false, true, some "W"⟩),
          (⟨"a"⟩, ⟨none, .Integer, .Empty, false, true, none⟩)]⟩)]⟩).version :=
  ⟨by decide, claim_C5.1 _ _ (by decide)⟩

/-! ## Decimal rendering lemmas (for the round-trip claim) -/

